import Mathlib

/-!
# A resettable deadline (Go package `deadline`)

Shallow embedding of `deadline.go`.  The heap objects the code touches are made
explicit: every `chan struct{}` ever created and every `*time.Timer` ever armed
is an entry of a list, and a reference is the index of its entry.  `Done` and `Set`
run under `d.mutex`; the callback goroutine of a timer takes no mutex, so a timer
that `Set` arms can expire, and run its callback, before that `Set` returns.  The
state in which `Set` returns therefore depends on how far the new timer has got
(`Progress`), and in a run the moves of a timer are transitions of their own.
-/

namespace Deadline

/-- Identity of a `chan struct{}` object: its index in `deadline.chans`. -/
abbrev Chan := Nat

/-- Identity of a `*time.Timer` object: its index in `deadline.timers`. -/
abbrev TimerRef := Nat

/-- A `time.Time` instant, in nanoseconds since January 1, year 1 00:00:00 UTC
(the zero value of `time.Time` is the instant `0`). -/
abbrev Time := Int

/-- A `time.Duration`: a signed 64-bit count of nanoseconds. -/
abbrev Duration := Int

/-- Largest `time.Duration`. -/
def maxDuration : Duration := 2 ^ 63 - 1

/-- Smallest `time.Duration`. -/
def minDuration : Duration := -(2 ^ 63)

/-- The method `t.IsZero()`. -/
def Time.IsZero (t : Time) : Bool := t == 0

/-- The method `t.Sub(u)`: the difference, saturated to the range of `Duration`. -/
def Time.Sub (t u : Time) : Duration :=
  if maxDuration < t - u then maxDuration
  else if t - u < minDuration then minDuration
  else t - u

/-- The function `time.Until(t)`, with the clock reading `now` it takes made explicit. -/
def Until (t now : Time) : Duration := Time.Sub t now

/-- Life cycle of a timer created by `time.AfterFunc`. -/
inductive TimerStatus where
  /-- armed and not yet expired: `Stop()` returns true and prevents the callback -/
  | pending
  /-- expired: the callback goroutine is started but has not yet run `close(d.done)` -/
  | fired
  /-- the callback has run -/
  | finished
  /-- `Stop()` succeeded: the callback never runs -/
  | stopped
  deriving DecidableEq, Repr

/-- A timer object.  `armedFor` is a history variable: the value of `d.done` when
`time.AfterFunc` was called.  No operation reads it. -/
structure Timer where
  status : TimerStatus
  armedFor : Chan
  deriving DecidableEq, Repr

/-- The struct `deadline` together with the objects its fields point to.
`chans[c]` tells whether channel `c` is closed; `timer = none` is the nil timer.
The `mutex` field is not represented: `Done` and `Set` hold it for their whole
body and so do not interleave with each other. -/
structure deadline where
  chans : List Bool
  timers : List Timer
  timer : Option TimerRef
  done : Chan
  deriving DecidableEq, Repr

/-- Non-blocking receive test `select { case <-c: ...; default: }`: true iff `c` is closed. -/
def deadline.isClosed (d : deadline) (c : Chan) : Bool := d.chans.getD c false

/-- The timer object behind a reference. -/
def deadline.getTimer (d : deadline) (i : TimerRef) : Timer :=
  d.timers.getD i ⟨TimerStatus.stopped, 0⟩

/-- Status of the timer behind a reference. -/
def deadline.status (d : deadline) (i : TimerRef) : TimerStatus := (d.getTimer i).status

/-- Update the status of timer `i`. -/
def deadline.setStatus (d : deadline) (i : TimerRef) (s : TimerStatus) : deadline :=
  { d with timers := d.timers.set i { d.getTimer i with status := s } }

/-- Record that channel `c` is closed. -/
def deadline.markClosed (d : deadline) (c : Chan) : deadline :=
  { d with chans := d.chans.set c true }

/-- The builtin `close(c)`: closing a channel that is already closed panics (`none`). -/
def deadline.close (d : deadline) (c : Chan) : Option deadline :=
  match d.chans[c]? with
  | some false => some (d.markClosed c)
  | _ => none

/-- The statement `d.timer = nil`. -/
def deadline.clearTimer (d : deadline) : deadline := { d with timer := none }

/-- The statement `d.done = make(chan struct{})`: a new, open channel. -/
def deadline.makeDone (d : deadline) : deadline :=
  { d with chans := d.chans ++ [false], done := d.chans.length }

/-- The statement `d.timer = time.AfterFunc(duration, func() { close(d.done) })`. -/
def deadline.afterFunc (d : deadline) : deadline :=
  { d with timers := d.timers ++ [⟨TimerStatus.pending, d.done⟩],
           timer := some d.timers.length }

/-- The body of the callback of timer `i`, `func() { close(d.done) }`: it reads
`d.done` when it runs. -/
def deadline.runCallback (d : deadline) (i : TimerRef) : Option deadline :=
  match d.close d.done with
  | some d1 => some (d1.setStatus i TimerStatus.finished)
  | none => none

/-- The receive `<-d.done` that `Set` performs, holding the mutex, after
`d.timer.Stop()` returned false for timer `i`.  It returns at once when the channel
is closed.  Otherwise it waits for a close; the mutex keeps `Done` and `Set` out, so
the callback of `i`, if it is in flight, is what closes the channel.  With no
callback in flight the receive blocks forever (`none`). -/
def deadline.recvDone (d : deadline) (i : TimerRef) : Option deadline :=
  if d.isClosed d.done then some d
  else if d.status i = TimerStatus.fired then d.runCallback i
  else none

/-- Lines 45-52 of `Set`: stop the previous timer, drain, and clear the field. -/
def deadline.stopTimer (d : deadline) : Option deadline :=
  match d.timer with
  | none => some d
  | some i =>
    if d.status i = TimerStatus.pending then
      some (d.setStatus i TimerStatus.stopped).clearTimer
    else
      match d.recvDone i with
      | some d1 => some d1.clearTimer
      | none => none

/-- `New()`. -/
def New : deadline := { chans := [false], timers := [], timer := none, done := 0 }

/-- `d.Done()`: the returned channel and the state after the call. -/
def deadline.Done (d : deadline) : Chan × deadline := (d.done, d)

/-- How far the timer armed on line 85 has got when `Set` returns.  The callback
`func() { close(d.done) }` takes no mutex, so neither the expiry nor the callback
waits for the deferred `Unlock` of `Set`. -/
inductive Progress where
  /-- the timer has not expired yet -/
  | waiting
  /-- the timer has expired and its callback is in flight -/
  | expired
  /-- the callback has run -/
  | ran
  deriving DecidableEq, Repr

/-- The status of a timer that has got as far as `p`. -/
def Progress.status : Progress → TimerStatus
  | Progress.waiting => TimerStatus.pending
  | Progress.expired => TimerStatus.fired
  | Progress.ran => TimerStatus.finished

/-- The state after timer `i`, just armed, has got as far as `p`. -/
def deadline.raced (d : deadline) (i : TimerRef) : Progress → Option deadline
  | Progress.waiting => some d
  | Progress.expired => some (d.setStatus i TimerStatus.fired)
  | Progress.ran => (d.setStatus i TimerStatus.fired).runCallback i

/-- `d.Set(t)`: the state when the call returns.  `now` is the clock reading of
`time.Until`, and `p` tells how far the timer armed on line 85 has got by the time
`Set` returns.  `none` means the call does not return. -/
def deadline.Set (d : deadline) (t now : Time) (p : Progress) : Option deadline :=
  match d.stopTimer with
  | none => none
  | some d1 =>
    let doneIsClosed := d1.isClosed d1.done
    if Time.IsZero t then
      if doneIsClosed then some d1.makeDone else some d1
    else
      let duration := Until t now
      if duration ≤ 0 then
        if !doneIsClosed then d1.close d1.done else some d1
      else
        let d2 := if doneIsClosed then d1.makeDone else d1
        d2.afterFunc.raced d2.timers.length p

/-- The transitions of a deadline: a call of `Set` (lines 42-85, under the mutex),
the expiry of a timer, and the run of the callback of an expired timer.  The moves
of a timer are transitions of their own also when they happen before the `Set` that
armed it returns: such a call is the run `set, expire` or `set, expire, run`. -/
inductive Event where
  | set (t now : Time)
  | expire (i : TimerRef)
  | run (i : TimerRef)
  deriving DecidableEq, Repr

/-- When the runtime can take a transition: a timer expires only while pending, and
its callback runs only once, after the expiry. -/
def enabled (d : deadline) : Event → Bool
  | Event.set _ _ => true
  | Event.expire i => d.status i == TimerStatus.pending
  | Event.run i => d.status i == TimerStatus.fired

/-- Effect of a transition; `none` when it panics or never returns. -/
def step (d : deadline) : Event → Option deadline
  | Event.set t now => d.Set t now Progress.waiting
  | Event.expire i => some (d.setStatus i TimerStatus.fired)
  | Event.run i => d.runCallback i

/-- Run a sequence of transitions, each of which must be enabled and succeed. -/
def exec (d : deadline) : List Event → Option deadline
  | [] => some d
  | e :: es =>
    if enabled d e then
      match step d e with
      | some d1 => exec d1 es
      | none => none
    else none

/-- The moves that timer `i` has made when it has got as far as `p`. -/
def Progress.trail (i : TimerRef) : Progress → List Event
  | Progress.waiting => []
  | Progress.expired => [Event.expire i]
  | Progress.ran => [Event.expire i, Event.run i]

/-- The moves that timer `i` still has to make when it has got as far as `p`. -/
def Progress.rest (i : TimerRef) : Progress → List Event
  | Progress.waiting => [Event.expire i, Event.run i]
  | Progress.expired => [Event.run i]
  | Progress.ran => []

/-- The observable state: is the current signal signaled, is a timer set. -/
def deadline.observe (d : deadline) : Bool × Bool := (d.isClosed d.done, d.timer.isSome)

/-- The pointers of the struct point to objects that exist: `done` to a channel, and
`timer`, when it is not nil, to a timer. -/
def deadline.WF (d : deadline) : Prop :=
  d.done < d.chans.length ∧ ∀ i, d.timer = some i → i < d.timers.length

/-- The prior states of `Set`: the timer field is nil, or it holds a pending timer,
or a timer whose callback is in flight, or the current signal is already signaled.
In the remaining states (a timer that is neither pending nor in flight, with an open
`done`) the receive of line 49 has nothing to wait for. -/
def deadline.Settable (d : deadline) : Prop :=
  match d.timer with
  | none => True
  | some i => d.status i = TimerStatus.pending ∨ d.status i = TimerStatus.fired ∨
      d.isClosed d.done = true

/-- A timer whose callback may still run: pending, or expired with the callback in flight. -/
def deadline.live (d : deadline) (i : TimerRef) : Prop :=
  d.status i = TimerStatus.pending ∨ d.status i = TimerStatus.fired

/-- The invariant of the states reachable from `New()`: the only timer that can still
fire is the one in `d.timer`, it was armed for the current `done`, and `done` is open
as long as that timer has not run its callback. -/
def Inv (d : deadline) : Prop :=
  d.WF ∧ d.Settable ∧
  ∀ i, d.live i → d.timer = some i ∧ (d.getTimer i).armedFor = d.done ∧
    d.isClosed d.done = false

instance (d : deadline) : Decidable d.WF := by
  unfold deadline.WF
  cases d.timer with
  | none => exact decidable_of_iff (d.done < d.chans.length) (by simp)
  | some j => exact decidable_of_iff (d.done < d.chans.length ∧ j < d.timers.length) (by simp)

instance (d : deadline) : Decidable d.Settable := by
  unfold deadline.Settable; cases d.timer <;> infer_instance

/-! ## Lists as heaps -/

theorem getD_set_eq {α : Type} (l : List α) (i j : Nat) (a x : α) :
    (l.set i a).getD j x = if i = j ∧ i < l.length then a else l.getD j x := by
  simp only [List.getD_eq_getElem?_getD, List.getElem?_set]
  by_cases h : i = j
  · subst h
    by_cases h2 : i < l.length
    · simp [h2]
    · simp [h2, List.getElem?_eq_none (Nat.le_of_not_lt h2)]
  · simp [h]

theorem getD_append_one {α : Type} (l : List α) (j : Nat) (a x : α) :
    (l ++ [a]).getD j x = if j = l.length then a else l.getD j x := by
  simp only [List.getD_eq_getElem?_getD, List.getElem?_append]
  by_cases h : j < l.length
  · have : j ≠ l.length := by omega
    simp [h, this]
  · by_cases h2 : j = l.length
    · subst h2; simp
    · have h3 : l.length ≤ j := by omega
      have h4 : 1 ≤ j - l.length := by omega
      simp [h, h2, List.getElem?_eq_none h3,
        List.getElem?_eq_none (l := [a]) (by simpa using h4)]

theorem getD_of_le {α : Type} (l : List α) (j : Nat) (x : α) (h : l.length ≤ j) :
    l.getD j x = x := by
  simp [List.getD_eq_getElem?_getD, List.getElem?_eq_none h]

/-! ## What each primitive does to the observations -/

theorem status_lt (d : deadline) (i : TimerRef) (h : d.status i ≠ TimerStatus.stopped) :
    i < d.timers.length := by
  by_contra hc
  apply h
  unfold deadline.status deadline.getTimer
  rw [getD_of_le _ _ _ (Nat.le_of_not_lt hc)]

theorem isClosed_lt (d : deadline) (c : Chan) (h : d.isClosed c = true) :
    c < d.chans.length := by
  by_contra hc
  unfold deadline.isClosed at h
  rw [getD_of_le _ _ _ (Nat.le_of_not_lt hc)] at h
  cases h

@[simp] theorem setStatus_chans (d : deadline) (i : TimerRef) (s : TimerStatus) :
    (d.setStatus i s).chans = d.chans := rfl

@[simp] theorem setStatus_done (d : deadline) (i : TimerRef) (s : TimerStatus) :
    (d.setStatus i s).done = d.done := rfl

@[simp] theorem setStatus_timer (d : deadline) (i : TimerRef) (s : TimerStatus) :
    (d.setStatus i s).timer = d.timer := rfl

@[simp] theorem setStatus_isClosed (d : deadline) (i : TimerRef) (s : TimerStatus) (c : Chan) :
    (d.setStatus i s).isClosed c = d.isClosed c := rfl

@[simp] theorem setStatus_length (d : deadline) (i : TimerRef) (s : TimerStatus) :
    (d.setStatus i s).timers.length = d.timers.length := by
  simp [deadline.setStatus]

theorem setStatus_status (d : deadline) (i j : TimerRef) (s : TimerStatus) :
    (d.setStatus i s).status j =
      if i = j ∧ i < d.timers.length then s else d.status j := by
  simp only [deadline.status, deadline.getTimer, deadline.setStatus, getD_set_eq]
  split_ifs <;> rfl

@[simp] theorem setStatus_armedFor (d : deadline) (i j : TimerRef) (s : TimerStatus) :
    ((d.setStatus i s).getTimer j).armedFor = (d.getTimer j).armedFor := by
  simp only [deadline.getTimer, deadline.setStatus, getD_set_eq]
  split_ifs with h
  · rw [h.1]
  · rfl

@[simp] theorem makeDone_timer (d : deadline) : d.makeDone.timer = d.timer := rfl

@[simp] theorem makeDone_timers (d : deadline) : d.makeDone.timers = d.timers := rfl

@[simp] theorem makeDone_done (d : deadline) : d.makeDone.done = d.chans.length := rfl

@[simp] theorem makeDone_status (d : deadline) (i : TimerRef) :
    d.makeDone.status i = d.status i := rfl

@[simp] theorem makeDone_getTimer (d : deadline) (i : TimerRef) :
    d.makeDone.getTimer i = d.getTimer i := rfl

@[simp] theorem makeDone_length (d : deadline) :
    d.makeDone.chans.length = d.chans.length + 1 := by
  simp [deadline.makeDone]

@[simp] theorem makeDone_isClosed (d : deadline) (c : Chan) :
    d.makeDone.isClosed c = d.isClosed c := by
  simp only [deadline.isClosed, deadline.makeDone, getD_append_one]
  split_ifs with h
  · rw [getD_of_le _ _ _ (Nat.le_of_eq h.symm)]
  · rfl

theorem makeDone_open (d : deadline) : d.makeDone.isClosed d.makeDone.done = false := by
  rw [makeDone_isClosed, makeDone_done]
  simp [deadline.isClosed, getD_of_le]

@[simp] theorem afterFunc_chans (d : deadline) : d.afterFunc.chans = d.chans := rfl

@[simp] theorem afterFunc_done (d : deadline) : d.afterFunc.done = d.done := rfl

@[simp] theorem afterFunc_isClosed (d : deadline) (c : Chan) :
    d.afterFunc.isClosed c = d.isClosed c := rfl

@[simp] theorem afterFunc_timer (d : deadline) :
    d.afterFunc.timer = some d.timers.length := rfl

theorem afterFunc_getTimer (d : deadline) (j : TimerRef) :
    d.afterFunc.getTimer j =
      if j = d.timers.length then ⟨TimerStatus.pending, d.done⟩ else d.getTimer j := by
  simp only [deadline.getTimer, deadline.afterFunc, getD_append_one]

theorem afterFunc_status (d : deadline) (j : TimerRef) :
    d.afterFunc.status j =
      if j = d.timers.length then TimerStatus.pending else d.status j := by
  simp only [deadline.status, afterFunc_getTimer]
  split_ifs <;> rfl

@[simp] theorem clearTimer_timer (d : deadline) : d.clearTimer.timer = none := rfl

@[simp] theorem clearTimer_done (d : deadline) : d.clearTimer.done = d.done := rfl

@[simp] theorem clearTimer_chans (d : deadline) : d.clearTimer.chans = d.chans := rfl

@[simp] theorem clearTimer_timers (d : deadline) : d.clearTimer.timers = d.timers := rfl

@[simp] theorem clearTimer_isClosed (d : deadline) (c : Chan) :
    d.clearTimer.isClosed c = d.isClosed c := rfl

@[simp] theorem clearTimer_status (d : deadline) (i : TimerRef) :
    d.clearTimer.status i = d.status i := rfl

@[simp] theorem clearTimer_getTimer (d : deadline) (i : TimerRef) :
    d.clearTimer.getTimer i = d.getTimer i := rfl

@[simp] theorem markClosed_timer (d : deadline) (c : Chan) :
    (d.markClosed c).timer = d.timer := rfl

@[simp] theorem markClosed_done (d : deadline) (c : Chan) :
    (d.markClosed c).done = d.done := rfl

@[simp] theorem markClosed_timers (d : deadline) (c : Chan) :
    (d.markClosed c).timers = d.timers := rfl

@[simp] theorem markClosed_status (d : deadline) (c : Chan) (i : TimerRef) :
    (d.markClosed c).status i = d.status i := rfl

@[simp] theorem markClosed_getTimer (d : deadline) (c : Chan) (i : TimerRef) :
    (d.markClosed c).getTimer i = d.getTimer i := rfl

@[simp] theorem markClosed_length (d : deadline) (c : Chan) :
    (d.markClosed c).chans.length = d.chans.length := by
  simp [deadline.markClosed]

theorem markClosed_isClosed (d : deadline) (c k : Chan) :
    (d.markClosed c).isClosed k =
      if c = k ∧ c < d.chans.length then true else d.isClosed k := by
  simp only [deadline.isClosed, deadline.markClosed, getD_set_eq]

@[simp] theorem afterFunc_length (d : deadline) :
    d.afterFunc.timers.length = d.timers.length + 1 := by
  simp [deadline.afterFunc]

theorem close_some (d : deadline) (c : Chan) (h1 : c < d.chans.length)
    (h2 : d.isClosed c = false) : d.close c = some (d.markClosed c) := by
  have h3 : d.chans[c]? = some false := by
    rw [List.getElem?_eq_getElem h1]
    simp only [deadline.isClosed, List.getD_eq_getElem?_getD,
      List.getElem?_eq_getElem h1, Option.getD_some] at h2
    rw [h2]
  simp [deadline.close, h3]

theorem close_inv (d e : deadline) (c : Chan) (h : d.close c = some e) :
    c < d.chans.length ∧ d.isClosed c = false ∧ e = d.markClosed c := by
  unfold deadline.close at h
  split at h
  · rename_i hc
    have hlt : c < d.chans.length := by
      by_contra hn
      rw [List.getElem?_eq_none (Nat.le_of_not_lt hn)] at hc
      cases hc
    refine ⟨hlt, ?_, ?_⟩
    · simp [deadline.isClosed, List.getD_eq_getElem?_getD, hc]
    · cases h; rfl
  · cases h

/-! ## The two halves of `Set` -/

/-- The four ways in which lines 45-52 complete. -/
theorem stopTimer_cases (d d1 : deadline) (h : d.stopTimer = some d1) :
    (d.timer = none ∧ d1 = d) ∨
    (∃ i, d.timer = some i ∧ d.status i = TimerStatus.pending ∧
      d1 = (d.setStatus i TimerStatus.stopped).clearTimer) ∨
    (∃ i, d.timer = some i ∧ d.status i ≠ TimerStatus.pending ∧
      d.isClosed d.done = true ∧ d1 = d.clearTimer) ∨
    (∃ i, d.timer = some i ∧ d.status i = TimerStatus.fired ∧
      d.isClosed d.done = false ∧ d.done < d.chans.length ∧
      d1 = ((d.markClosed d.done).setStatus i TimerStatus.finished).clearTimer) := by
  unfold deadline.stopTimer at h
  cases ht : d.timer with
  | none =>
    rw [ht] at h
    simp only [Option.some.injEq] at h
    exact Or.inl ⟨rfl, h.symm⟩
  | some i =>
    rw [ht] at h
    simp only at h
    by_cases hp : d.status i = TimerStatus.pending
    · rw [if_pos hp] at h
      simp only [Option.some.injEq] at h
      exact Or.inr (Or.inl ⟨i, rfl, hp, h.symm⟩)
    · rw [if_neg hp] at h
      unfold deadline.recvDone at h
      by_cases hc : d.isClosed d.done = true
      · rw [if_pos hc] at h
        simp only [Option.some.injEq] at h
        exact Or.inr (Or.inr (Or.inl ⟨i, rfl, hp, hc, h.symm⟩))
      · rw [if_neg hc] at h
        by_cases hf : d.status i = TimerStatus.fired
        · rw [if_pos hf] at h
          unfold deadline.runCallback at h
          cases hcl : d.close d.done with
          | none => rw [hcl] at h; cases h
          | some e =>
            rw [hcl] at h
            simp only [Option.some.injEq] at h
            obtain ⟨h1, h2, h3⟩ := close_inv d e d.done hcl
            subst h3
            exact Or.inr (Or.inr (Or.inr ⟨i, rfl, hf, h2, h1, h.symm⟩))
        · rw [if_neg hf] at h
          cases h

/-- Lines 45-52 complete from every well-formed settable state. -/
theorem stopTimer_some (d : deadline) (hw : d.WF) (hs : d.Settable) :
    ∃ d1, d.stopTimer = some d1 := by
  unfold deadline.Settable at hs
  unfold deadline.stopTimer
  cases ht : d.timer with
  | none => exact ⟨d, rfl⟩
  | some i =>
    rw [ht] at hs
    simp only at hs ⊢
    by_cases hp : d.status i = TimerStatus.pending
    · rw [if_pos hp]; exact ⟨_, rfl⟩
    · rw [if_neg hp]
      unfold deadline.recvDone
      by_cases hc : d.isClosed d.done = true
      · rw [if_pos hc]; exact ⟨_, rfl⟩
      · rw [if_neg hc]
        have hf : d.status i = TimerStatus.fired := by
          rcases hs with h | h | h
          · exact absurd h hp
          · exact h
          · exact absurd h hc
        rw [if_pos hf]
        unfold deadline.runCallback
        rw [close_some d d.done hw.1 (by simpa using hc)]
        exact ⟨_, rfl⟩

/-- What lines 45-52 leave unchanged, and what they establish. -/
theorem stopTimer_obs (d d1 : deadline) (h : d.stopTimer = some d1) :
    d1.timer = none ∧ d1.done = d.done ∧ d1.chans.length = d.chans.length ∧
    d1.timers.length = d.timers.length ∧
    (∀ c, d.isClosed c = true → d1.isClosed c = true) ∧
    (∀ j, (d1.getTimer j).armedFor = (d.getTimer j).armedFor) := by
  rcases stopTimer_cases d d1 h with ⟨h1, rfl⟩ | ⟨i, _, _, rfl⟩ | ⟨i, _, _, _, rfl⟩ |
    ⟨i, _, _, _, _, rfl⟩
  · exact ⟨h1, rfl, rfl, rfl, fun _ hc => hc, fun _ => rfl⟩
  · simp
  · simp
  · simp only [clearTimer_timer, clearTimer_done, setStatus_done, markClosed_done,
      clearTimer_chans, setStatus_chans, markClosed_length, clearTimer_timers,
      setStatus_length, markClosed_timers, clearTimer_isClosed, setStatus_isClosed,
      clearTimer_getTimer, setStatus_armedFor, markClosed_getTimer, implies_true,
      and_true, true_and]
    intro c hc
    rw [markClosed_isClosed]
    split_ifs <;> simp [hc]

/-- Lines 45-52 change the status of the timer in `d.timer` only: a pending timer
is stopped, and no timer is pending or in flight afterwards unless it was so before
and is not the one that was in `d.timer` (or, in flight, was left alone because
`done` was already closed). -/
theorem stopTimer_status (d d1 : deadline) (h : d.stopTimer = some d1) (j : TimerRef) :
    (d.timer = some j → d.status j = TimerStatus.pending →
      d1.status j = TimerStatus.stopped) ∧
    (d1.status j = TimerStatus.pending →
      d.status j = TimerStatus.pending ∧ d.timer ≠ some j) ∧
    (d1.status j = TimerStatus.fired →
      d.status j = TimerStatus.fired ∧ (d.timer = some j → d.isClosed d.done = true)) ∧
    (d.timer ≠ some j → d1.status j = d.status j) := by
  rcases stopTimer_cases d d1 h with ⟨h0, rfl⟩ | ⟨i, hi, hp, rfl⟩ | ⟨i, hi, hnp, hc, rfl⟩ |
    ⟨i, hi, hf, hc, _, rfl⟩
  · refine ⟨fun hj => ?_, fun hj => ⟨hj, ?_⟩, fun hj => ⟨hj, fun hj2 => ?_⟩, fun _ => rfl⟩
    · rw [h0] at hj; cases hj
    · rw [h0]; simp
    · rw [h0] at hj2; cases hj2
  · have hlt : i < d.timers.length := status_lt d i (by rw [hp]; decide)
    rw [clearTimer_status, setStatus_status]
    by_cases hij : i = j
    · subst hij
      simp [hlt, hi]
    · have hne : d.timer ≠ some j := by rw [hi]; simpa using hij
      simp [hij, hne]
  · rw [clearTimer_status]
    refine ⟨fun hj hp => ?_, fun hj => ⟨hj, fun hj2 => ?_⟩, fun hj => ⟨hj, fun _ => hc⟩,
      fun _ => rfl⟩
    · rw [hi] at hj; cases hj; exact absurd hp hnp
    · rw [hi] at hj2; cases hj2; exact hnp hj
  · have hlt : i < d.timers.length := status_lt d i (by rw [hf]; decide)
    rw [clearTimer_status, setStatus_status, markClosed_timers, markClosed_status]
    by_cases hij : i = j
    · subst hij
      simp [hlt, hi, hf]
    · have hne : d.timer ≠ some j := by rw [hi]; simpa using hij
      simp [hij, hne]

/-- A timer that has been stopped, or whose callback has run, is left alone by
lines 45-52. -/
theorem stopTimer_dead (d d1 : deadline) (h : d.stopTimer = some d1) (j : TimerRef)
    (hj : d.status j = TimerStatus.finished ∨ d.status j = TimerStatus.stopped) :
    d1.status j = d.status j := by
  by_cases hne : d.timer = some j
  · rcases stopTimer_cases d d1 h with ⟨_, rfl⟩ | ⟨i, hi, hp, rfl⟩ | ⟨i, _, _, _, rfl⟩ |
      ⟨i, hi, hf, _, _, rfl⟩
    · rfl
    · rw [hi] at hne; cases hne
      rw [hp] at hj; rcases hj with hj | hj <;> cases hj
    · rfl
    · rw [hi] at hne; cases hne
      rw [hf] at hj; rcases hj with hj | hj <;> cases hj
  · exact (stopTimer_status d d1 h j).2.2.2 hne

/-- A channel that lines 45-52 close is the current `done`, closed by the callback
of the timer in `d.timer`, which was in flight. -/
theorem stopTimer_closed_origin (d d1 : deadline) (h : d.stopTimer = some d1) (c : Chan)
    (hc : d1.isClosed c = true) :
    d.isClosed c = true ∨
      (c = d.done ∧ ∃ j, d.timer = some j ∧ d.status j = TimerStatus.fired) := by
  rcases stopTimer_cases d d1 h with ⟨_, rfl⟩ | ⟨i, _, _, rfl⟩ | ⟨i, _, _, _, rfl⟩ |
    ⟨i, hi, hf, _, _, rfl⟩
  · exact Or.inl hc
  · exact Or.inl hc
  · exact Or.inl hc
  · rw [clearTimer_isClosed, setStatus_isClosed, markClosed_isClosed] at hc
    by_cases hk : d.done = c ∧ d.done < d.chans.length
    · exact Or.inr ⟨hk.1.symm, i, hi, hf⟩
    · rw [if_neg hk] at hc; exact Or.inl hc

/-- The rest of `Set`, lines 54-86, from the state that lines 45-52 leave. -/
theorem Set_of_stop (d d1 : deadline) (t now : Time) (h : d.stopTimer = some d1) :
    d.Set t now Progress.waiting =
      if Time.IsZero t then
        if d1.isClosed d1.done then some d1.makeDone else some d1
      else if Until t now ≤ 0 then
        if !d1.isClosed d1.done then d1.close d1.done else some d1
      else some (if d1.isClosed d1.done then d1.makeDone else d1).afterFunc := by
  unfold deadline.Set
  rw [h]
  rfl

theorem Until_pos (t now : Time) : 0 < Until t now ↔ now < t := by
  have key : ∀ a b : Int, (0 < (if 2 ^ 63 - 1 < a - b then (2 ^ 63 - 1 : Int)
      else if a - b < -(2 ^ 63) then -(2 ^ 63) else a - b)) ↔ b < a := by
    intro a b
    split_ifs <;> constructor <;> intro h <;> omega
  exact key t now

theorem Until_nonpos (t now : Time) : Until t now ≤ 0 ↔ t ≤ now := by
  have := Until_pos t now
  constructor <;> intro h <;> by_contra hc <;> simp only [not_le] at hc
  · exact absurd (this.2 hc) (not_lt.2 h)
  · exact absurd (this.1 hc) (not_lt.2 h)

/-- The six ways in which `Set` returns. -/
theorem Set_cases (d e : deadline) (t now : Time) (h : d.Set t now Progress.waiting = some e) :
    ∃ d1, d.stopTimer = some d1 ∧
      ((Time.IsZero t = true ∧ d1.isClosed d1.done = true ∧ e = d1.makeDone) ∨
       (Time.IsZero t = true ∧ d1.isClosed d1.done = false ∧ e = d1) ∨
       (Time.IsZero t = false ∧ Until t now ≤ 0 ∧ d1.isClosed d1.done = false ∧
          d1.done < d1.chans.length ∧ e = d1.markClosed d1.done) ∨
       (Time.IsZero t = false ∧ Until t now ≤ 0 ∧ d1.isClosed d1.done = true ∧ e = d1) ∨
       (Time.IsZero t = false ∧ 0 < Until t now ∧ d1.isClosed d1.done = true ∧
          e = d1.makeDone.afterFunc) ∨
       (Time.IsZero t = false ∧ 0 < Until t now ∧ d1.isClosed d1.done = false ∧
          e = d1.afterFunc)) := by
  cases h1 : d.stopTimer with
  | none => simp [deadline.Set, h1] at h
  | some d1 =>
    refine ⟨d1, rfl, ?_⟩
    rw [Set_of_stop d d1 t now h1] at h
    cases hz : Time.IsZero t <;> cases hc : d1.isClosed d1.done <;>
      simp only [hz, hc, Bool.false_eq_true, if_false, if_true, Bool.not_false,
        Bool.not_true] at h
    · by_cases hp : Until t now ≤ 0
      · rw [if_pos hp] at h
        obtain ⟨h2, _, h4⟩ := close_inv d1 e d1.done h
        exact Or.inr (Or.inr (Or.inl ⟨rfl, hp, rfl, h2, h4⟩))
      · rw [if_neg hp] at h
        simp only [Option.some.injEq] at h
        exact Or.inr (Or.inr (Or.inr (Or.inr (Or.inr ⟨rfl, not_le.1 hp, rfl, h.symm⟩))))
    · by_cases hp : Until t now ≤ 0
      · rw [if_pos hp] at h
        simp only [Option.some.injEq] at h
        exact Or.inr (Or.inr (Or.inr (Or.inl ⟨rfl, hp, rfl, h.symm⟩)))
      · rw [if_neg hp] at h
        simp only [Option.some.injEq] at h
        exact Or.inr (Or.inr (Or.inr (Or.inr (Or.inl ⟨rfl, not_le.1 hp, rfl, h.symm⟩))))
    · simp only [Option.some.injEq] at h
      exact Or.inr (Or.inl ⟨rfl, rfl, h.symm⟩)
    · simp only [Option.some.injEq] at h
      exact Or.inl ⟨rfl, rfl, h.symm⟩

/-- `Set` returns from every well-formed settable state, for every argument. -/
theorem Set_some (d : deadline) (t now : Time) (hw : d.WF) (hs : d.Settable) :
    ∃ e, d.Set t now Progress.waiting = some e := by
  obtain ⟨d1, h1⟩ := stopTimer_some d hw hs
  obtain ⟨_, hd, hl, _, _, _⟩ := stopTimer_obs d d1 h1
  have hw1 : d1.done < d1.chans.length := by rw [hd, hl]; exact hw.1
  rw [Set_of_stop d d1 t now h1]
  cases hz : Time.IsZero t <;> cases hc : d1.isClosed d1.done <;>
    simp only [Bool.false_eq_true, if_false, if_true, Bool.not_false, Bool.not_true]
  · split_ifs
    · exact ⟨_, close_some d1 d1.done hw1 hc⟩
    · exact ⟨_, rfl⟩
  · split_ifs <;> exact ⟨_, rfl⟩
  · exact ⟨_, rfl⟩
  · exact ⟨_, rfl⟩

/-- Outside the settable states `Set` never returns: the timer in `d.timer` is neither
pending nor in flight and `done` is open, so the receive of line 49 waits forever. -/
theorem Set_blocks (d : deadline) (t now : Time) (p : Progress) (hs : ¬ d.Settable) :
    d.Set t now p = none := by
  unfold deadline.Settable at hs
  cases ht : d.timer with
  | none => rw [ht] at hs; exact absurd trivial hs
  | some i =>
    rw [ht] at hs
    simp only [not_or] at hs
    obtain ⟨hp, hf, hc⟩ := hs
    have h1 : d.stopTimer = none := by
      unfold deadline.stopTimer
      rw [ht]
      simp only
      rw [if_neg hp]
      unfold deadline.recvDone
      rw [if_neg hc, if_neg hf]
    unfold deadline.Set
    rw [h1]

/-- The future branch: what the state looks like after `afterFunc`, given the state
`d1` that lines 45-52 leave. -/
theorem future_obs (d1 e : deadline)
    (he : e = d1.makeDone.afterFunc ∧ d1.isClosed d1.done = true ∨
      e = d1.afterFunc ∧ d1.isClosed d1.done = false) :
    e.timer = some d1.timers.length ∧ e.isClosed e.done = false ∧
    e.timers.length = d1.timers.length + 1 ∧
    (e.getTimer d1.timers.length).armedFor = e.done ∧
    (∀ j, e.status j = if j = d1.timers.length then TimerStatus.pending else d1.status j) := by
  rcases he with ⟨rfl, _⟩ | ⟨rfl, hc⟩
  · refine ⟨rfl, ?_, by simp, ?_, ?_⟩
    · rw [afterFunc_isClosed, afterFunc_done]; exact makeDone_open d1
    · rw [afterFunc_getTimer]; simp
    · intro j; rw [afterFunc_status]; simp
  · refine ⟨rfl, ?_, by simp, ?_, ?_⟩
    · rw [afterFunc_isClosed, afterFunc_done]; exact hc
    · rw [afterFunc_getTimer]; simp
    · intro j; rw [afterFunc_status]

/-- `Set` keeps the pointers valid and leaves a state from which `Set` returns again. -/
theorem Set_WF (d e : deadline) (t now : Time) (hw : d.WF) (h : d.Set t now Progress.waiting = some e) :
    e.WF ∧ e.Settable := by
  obtain ⟨d1, h1, hcase⟩ := Set_cases d e t now h
  obtain ⟨ht, hd, hl, _, _, _⟩ := stopTimer_obs d d1 h1
  have hw1 : d1.done < d1.chans.length := by rw [hd, hl]; exact hw.1
  have hnone : ∀ x : deadline, x.timer = none → x.done < x.chans.length →
      x.WF ∧ x.Settable := by
    intro x hx hx2
    refine ⟨⟨hx2, fun i hi => ?_⟩, ?_⟩
    · rw [hx] at hi; cases hi
    · unfold deadline.Settable; rw [hx]; trivial
  have hfut : ∀ x : deadline, (x = d1.makeDone.afterFunc ∧ d1.isClosed d1.done = true ∨
      x = d1.afterFunc ∧ d1.isClosed d1.done = false) → x.done < x.chans.length →
      x.WF ∧ x.Settable := by
    intro x hx hx2
    obtain ⟨ft, _, fl, _, fs⟩ := future_obs d1 x hx
    refine ⟨⟨hx2, fun i hi => ?_⟩, ?_⟩
    · rw [ft] at hi; cases hi; rw [fl]; exact Nat.lt_succ_self _
    · unfold deadline.Settable; rw [ft]
      exact Or.inl (by rw [fs]; simp)
  rcases hcase with ⟨_, _, rfl⟩ | ⟨_, _, rfl⟩ | ⟨_, _, _, _, rfl⟩ | ⟨_, _, _, rfl⟩ |
    ⟨_, _, hc, rfl⟩ | ⟨_, _, hc, rfl⟩
  · exact hnone _ (by simpa using ht) (by simp)
  · exact hnone _ ht hw1
  · exact hnone _ (by simpa using ht) (by simpa using hw1)
  · exact hnone _ ht hw1
  · exact hfut _ (Or.inl ⟨rfl, hc⟩) (by simp)
  · exact hfut _ (Or.inr ⟨rfl, hc⟩) (by simpa using hw1)

/-- `Set` never reopens a channel. -/
theorem Set_mono (d e : deadline) (t now : Time) (c : Chan) (h : d.Set t now Progress.waiting = some e)
    (hc : d.isClosed c = true) : e.isClosed c = true := by
  obtain ⟨d1, h1, hcase⟩ := Set_cases d e t now h
  obtain ⟨_, _, _, _, hm, _⟩ := stopTimer_obs d d1 h1
  have hc1 := hm c hc
  rcases hcase with ⟨_, _, rfl⟩ | ⟨_, _, rfl⟩ | ⟨_, _, _, _, rfl⟩ | ⟨_, _, _, rfl⟩ |
    ⟨_, _, _, rfl⟩ | ⟨_, _, _, rfl⟩
  · simpa using hc1
  · exact hc1
  · rw [markClosed_isClosed]; split_ifs <;> simp [hc1]
  · exact hc1
  · simpa using hc1
  · simpa using hc1

/-- Lines 45-52 complete whenever `done` is closed: the receive has nothing to wait for. -/
theorem stopTimer_some_closed (d : deadline) (hc : d.isClosed d.done = true) :
    ∃ d1, d.stopTimer = some d1 := by
  unfold deadline.stopTimer
  cases d.timer with
  | none => exact ⟨d, rfl⟩
  | some i =>
    simp only
    by_cases hp : d.status i = TimerStatus.pending
    · rw [if_pos hp]; exact ⟨_, rfl⟩
    · rw [if_neg hp]
      unfold deadline.recvDone
      rw [if_pos hc]; exact ⟨_, rfl⟩

/-- The zero branch, lines 64-69. -/
theorem zero_branch (d : deadline) (t now : Time) (hw : d.WF) (hs : d.Settable)
    (hz : Time.IsZero t = true) :
    ∃ e, d.Set t now Progress.waiting = some e ∧ e.isClosed e.done = false ∧ e.timer = none := by
  obtain ⟨e, he⟩ := Set_some d t now hw hs
  obtain ⟨d1, h1, hcase⟩ := Set_cases d e t now he
  obtain ⟨ht, _, _, _, _, _⟩ := stopTimer_obs d d1 h1
  refine ⟨e, he, ?_⟩
  rcases hcase with ⟨_, _, rfl⟩ | ⟨_, hc, rfl⟩ | ⟨h, _⟩ | ⟨h, _⟩ | ⟨h, _⟩ | ⟨h, _⟩
  · exact ⟨makeDone_open d1, by simpa using ht⟩
  · exact ⟨hc, ht⟩
  all_goals (rw [hz] at h; cases h)

/-- Lines 54-86 leave the timers that existed before the call as lines 45-52 left them. -/
theorem Set_status_old (d e : deadline) (t now : Time) (h : d.Set t now Progress.waiting = some e) :
    ∃ d1, d.stopTimer = some d1 ∧ d.timers.length ≤ e.timers.length ∧
      ∀ j, j < d.timers.length →
        e.status j = d1.status j ∧ (e.getTimer j).armedFor = (d.getTimer j).armedFor := by
  obtain ⟨d1, h1, hcase⟩ := Set_cases d e t now h
  obtain ⟨_, _, _, hlen, _, ha⟩ := stopTimer_obs d d1 h1
  refine ⟨d1, h1, ?_⟩
  have hfut : ∀ x : deadline, (x = d1.makeDone.afterFunc ∧ d1.isClosed d1.done = true ∨
      x = d1.afterFunc ∧ d1.isClosed d1.done = false) →
      d.timers.length ≤ x.timers.length ∧ ∀ j, j < d.timers.length →
        x.status j = d1.status j ∧ (x.getTimer j).armedFor = (d.getTimer j).armedFor := by
    intro x hx
    obtain ⟨_, _, fl, _, fs⟩ := future_obs d1 x hx
    refine ⟨by rw [fl, hlen]; exact Nat.le_succ _, fun j hj => ?_⟩
    have hne : j ≠ d1.timers.length := by rw [hlen]; exact Nat.ne_of_lt hj
    refine ⟨by rw [fs, if_neg hne], ?_⟩
    rcases hx with ⟨rfl, _⟩ | ⟨rfl, _⟩
    · rw [afterFunc_getTimer, makeDone_timers, if_neg hne, makeDone_getTimer, ha]
    · rw [afterFunc_getTimer, if_neg hne, ha]
  rcases hcase with ⟨_, _, rfl⟩ | ⟨_, _, rfl⟩ | ⟨_, _, _, _, rfl⟩ | ⟨_, _, _, rfl⟩ |
    ⟨_, _, hc, rfl⟩ | ⟨_, _, hc, rfl⟩
  · exact ⟨by simp [hlen], fun j _ => ⟨rfl, by rw [makeDone_getTimer, ha]⟩⟩
  · exact ⟨by simp [hlen], fun j _ => ⟨rfl, ha j⟩⟩
  · exact ⟨by simp [hlen], fun j _ => ⟨rfl, by rw [markClosed_getTimer, ha]⟩⟩
  · exact ⟨by simp [hlen], fun j _ => ⟨rfl, ha j⟩⟩
  · exact hfut _ (Or.inl ⟨rfl, hc⟩)
  · exact hfut _ (Or.inr ⟨rfl, hc⟩)

/-! ## The invariant of the reachable states -/

theorem Inv_New : Inv New := by
  refine ⟨⟨by decide, fun i hi => by cases hi⟩, trivial, fun i hi => ?_⟩
  have hs : New.status i = TimerStatus.stopped := by
    unfold deadline.status deadline.getTimer
    rw [getD_of_le _ _ _ (Nat.zero_le _)]
  unfold deadline.live at hi
  rw [hs] at hi
  rcases hi with hi | hi <;> cases hi

/-- After lines 45-52, from a state that satisfies the invariant, no timer can fire. -/
theorem stopTimer_quiet (d d1 : deadline) (hi : Inv d) (h : d.stopTimer = some d1)
    (j : TimerRef) : ¬ d1.live j := by
  intro hl
  obtain ⟨_, hb, hc, _⟩ := stopTimer_status d d1 h j
  rcases hl with hl | hl
  · obtain ⟨h1, h2⟩ := hb hl
    exact h2 (hi.2.2 j (Or.inl h1)).1
  · obtain ⟨h1, h2⟩ := hc hl
    obtain ⟨h3, _, h4⟩ := hi.2.2 j (Or.inr h1)
    rw [h2 h3] at h4
    cases h4

theorem Inv_Set (d e : deadline) (t now : Time) (hi : Inv d) (h : d.Set t now Progress.waiting = some e) :
    Inv e := by
  obtain ⟨hw, hs⟩ := Set_WF d e t now hi.1 h
  refine ⟨hw, hs, ?_⟩
  obtain ⟨d1, h1, hcase⟩ := Set_cases d e t now h
  have hq := stopTimer_quiet d d1 hi h1
  have hfut : ∀ x : deadline, (x = d1.makeDone.afterFunc ∧ d1.isClosed d1.done = true ∨
      x = d1.afterFunc ∧ d1.isClosed d1.done = false) →
      ∀ j, x.live j → x.timer = some j ∧ (x.getTimer j).armedFor = x.done ∧
        x.isClosed x.done = false := by
    intro x hx j hj
    obtain ⟨ft, fc, _, fa, fs⟩ := future_obs d1 x hx
    by_cases hjl : j = d1.timers.length
    · subst hjl
      exact ⟨ft, fa, fc⟩
    · exfalso
      apply hq j
      unfold deadline.live at hj ⊢
      rw [fs, if_neg hjl] at hj
      exact hj
  rcases hcase with ⟨_, _, rfl⟩ | ⟨_, _, rfl⟩ | ⟨_, _, _, _, rfl⟩ | ⟨_, _, _, rfl⟩ |
    ⟨_, _, hc, rfl⟩ | ⟨_, _, hc, rfl⟩
  · intro j hj; exact absurd hj (hq j)
  · intro j hj; exact absurd hj (hq j)
  · intro j hj; exact absurd hj (hq j)
  · intro j hj; exact absurd hj (hq j)
  · exact hfut _ (Or.inl ⟨rfl, hc⟩)
  · exact hfut _ (Or.inr ⟨rfl, hc⟩)

theorem Inv_expire (d : deadline) (i : TimerRef) (hi : Inv d)
    (hp : d.status i = TimerStatus.pending) : Inv (d.setStatus i TimerStatus.fired) := by
  have hlt : i < d.timers.length := status_lt d i (by rw [hp]; decide)
  obtain ⟨ht, ha, hc⟩ := hi.2.2 i (Or.inl hp)
  refine ⟨⟨hi.1.1, fun k hk => ?_⟩, ?_, fun j hj => ?_⟩
  · rw [setStatus_length]; exact hi.1.2 k hk
  · unfold deadline.Settable
    rw [setStatus_timer, ht]
    exact Or.inr (Or.inl (by rw [setStatus_status]; simp [hlt]))
  · rw [setStatus_timer, setStatus_armedFor, setStatus_isClosed, setStatus_done]
    by_cases hij : i = j
    · subst hij; exact ⟨ht, ha, hc⟩
    · apply hi.2.2 j
      unfold deadline.live at hj ⊢
      rw [setStatus_status, if_neg (fun hh => hij hh.1)] at hj
      exact hj

/-- In a state that satisfies the invariant, the callback of a timer in flight finds
`done` open: its `close` does not panic. -/
theorem runCallback_some (d : deadline) (i : TimerRef) (hi : Inv d)
    (hf : d.status i = TimerStatus.fired) :
    d.runCallback i = some ((d.markClosed d.done).setStatus i TimerStatus.finished) := by
  obtain ⟨_, _, hc⟩ := hi.2.2 i (Or.inr hf)
  unfold deadline.runCallback
  rw [close_some d d.done hi.1.1 hc]

theorem Inv_run (d e : deadline) (i : TimerRef) (hi : Inv d)
    (hf : d.status i = TimerStatus.fired) (h : d.runCallback i = some e) : Inv e := by
  rw [runCallback_some d i hi hf] at h
  cases h
  have hlt : i < d.timers.length := status_lt d i (by rw [hf]; decide)
  obtain ⟨ht, _, _⟩ := hi.2.2 i (Or.inr hf)
  refine ⟨⟨by simpa using hi.1.1, fun k hk => ?_⟩, ?_, fun j hj => ?_⟩
  · rw [setStatus_length]; exact hi.1.2 k hk
  · unfold deadline.Settable
    rw [setStatus_timer, markClosed_timer, ht]
    refine Or.inr (Or.inr ?_)
    rw [setStatus_isClosed, setStatus_done, markClosed_done, markClosed_isClosed]
    simp [hi.1.1]
  · exfalso
    unfold deadline.live at hj
    rw [setStatus_status, markClosed_timers, markClosed_status] at hj
    by_cases hij : i = j
    · subst hij
      simp [hlt] at hj
    · rw [if_neg (fun hh => hij hh.1)] at hj
      have := (hi.2.2 j hj).1
      rw [ht] at this
      cases this
      exact hij rfl

theorem Inv_step (d e : deadline) (ev : Event) (hi : Inv d) (hen : enabled d ev = true)
    (h : step d ev = some e) : Inv e := by
  cases ev with
  | set t now => exact Inv_Set d e t now hi h
  | expire i =>
    simp only [step, Option.some.injEq] at h
    subst h
    exact Inv_expire d i hi (by simpa [enabled] using hen)
  | run i => exact Inv_run d e i hi (by simpa [enabled] using hen) h

theorem Inv_exec (es : List Event) (d e : deadline) (hi : Inv d) (h : exec d es = some e) :
    Inv e := by
  induction es generalizing d with
  | nil =>
    simp only [exec, Option.some.injEq] at h
    subst h; exact hi
  | cons ev es ih =>
    unfold exec at h
    by_cases hen : enabled d ev = true
    · rw [if_pos hen] at h
      cases hs : step d ev with
      | none => rw [hs] at h; cases h
      | some d1 =>
        rw [hs] at h
        exact ih d1 (Inv_step d d1 ev hi hen hs) h
    · rw [if_neg hen] at h; cases h

/-- Every enabled transition succeeds in a state that satisfies the invariant. -/
theorem step_some (d : deadline) (ev : Event) (hi : Inv d) (hen : enabled d ev = true) :
    ∃ e, step d ev = some e := by
  cases ev with
  | set t now => exact Set_some d t now hi.1 hi.2.1
  | expire i => exact ⟨_, rfl⟩
  | run i => exact ⟨_, runCallback_some d i hi (by simpa [enabled] using hen)⟩

/-- A timer that has been stopped, or whose callback has run, keeps its status in
every transition. -/
theorem step_dead (d e : deadline) (ev : Event) (i : TimerRef)
    (hen : enabled d ev = true) (h : step d ev = some e) (hlt : i < d.timers.length)
    (hs : d.status i = TimerStatus.finished ∨ d.status i = TimerStatus.stopped) :
    e.status i = d.status i ∧ i < e.timers.length := by
  cases ev with
  | set t now =>
    obtain ⟨d1, h1, hlen, hold⟩ := Set_status_old d e t now h
    exact ⟨by rw [(hold i hlt).1, stopTimer_dead d d1 h1 i hs], Nat.lt_of_lt_of_le hlt hlen⟩
  | expire j =>
    simp only [step, Option.some.injEq] at h
    subst h
    have hp : d.status j = TimerStatus.pending := by simpa [enabled] using hen
    have hne : j ≠ i := by
      intro hji; subst hji
      rw [hp] at hs; rcases hs with hs | hs <;> cases hs
    refine ⟨?_, by simpa using hlt⟩
    rw [setStatus_status, if_neg (fun hh => hne hh.1)]
  | run j =>
    have hf : d.status j = TimerStatus.fired := by simpa [enabled] using hen
    have hne : j ≠ i := by
      intro hji; subst hji
      rw [hf] at hs; rcases hs with hs | hs <;> cases hs
    simp only [step, deadline.runCallback] at h
    cases hc : d.close d.done with
    | none => rw [hc] at h; cases h
    | some x =>
      rw [hc] at h
      simp only [Option.some.injEq] at h
      obtain ⟨_, _, rfl⟩ := close_inv d x d.done hc
      subst h
      refine ⟨?_, by simpa using hlt⟩
      rw [setStatus_status, if_neg (fun hh => hne hh.1), markClosed_status]

theorem exec_dead (es : List Event) (d e : deadline) (i : TimerRef)
    (h : exec d es = some e) (hlt : i < d.timers.length)
    (hs : d.status i = TimerStatus.finished ∨ d.status i = TimerStatus.stopped) :
    e.status i = d.status i := by
  induction es generalizing d with
  | nil =>
    simp only [exec, Option.some.injEq] at h
    subst h; rfl
  | cons ev es ih =>
    unfold exec at h
    by_cases hen : enabled d ev = true
    · rw [if_pos hen] at h
      cases hst : step d ev with
      | none => rw [hst] at h; cases h
      | some d1 =>
        rw [hst] at h
        obtain ⟨h1, h2⟩ := step_dead d d1 ev i hen hst hlt hs
        rw [ih d1 h h2 (by rw [h1]; exact hs), h1]
    · rw [if_neg hen] at h; cases h

/-- In a reachable state, a channel that a transition closes is the current `done`,
and it is closed either by the past branch of `Set` or by the callback of the timer
in `d.timer`, armed when that channel was current. -/
theorem closed_by (d e : deadline) (ev : Event) (c : Chan) (hi : Inv d)
    (hen : enabled d ev = true) (h : step d ev = some e)
    (ho : d.isClosed c = false) (hc : e.isClosed c = true) :
    c = d.done ∧
    ((∃ u v, ev = Event.set u v ∧ Time.IsZero u = false ∧ Until u v ≤ 0) ∨
     (∃ j, d.timer = some j ∧ d.status j = TimerStatus.fired ∧
        (d.getTimer j).armedFor = c ∧ (ev = Event.run j ∨ ∃ u v, ev = Event.set u v))) := by
  cases ev with
  | set t now =>
    obtain ⟨d1, h1, hcase⟩ := Set_cases d e t now h
    obtain ⟨_, hd, _, _, _, _⟩ := stopTimer_obs d d1 h1
    have hdrain : d1.isClosed c = true →
        c = d.done ∧
        ((∃ u v, Event.set t now = Event.set u v ∧ Time.IsZero u = false ∧ Until u v ≤ 0) ∨
         (∃ j, d.timer = some j ∧ d.status j = TimerStatus.fired ∧
            (d.getTimer j).armedFor = c ∧
            (Event.set t now = Event.run j ∨ ∃ u v, Event.set t now = Event.set u v))) := by
      intro hc1
      rcases stopTimer_closed_origin d d1 h1 c hc1 with hx | ⟨hx, j, hj, hf⟩
      · rw [hx] at ho; cases ho
      · refine ⟨hx, Or.inr ⟨j, hj, hf, ?_, Or.inr ⟨t, now, rfl⟩⟩⟩
        rw [hx]; exact (hi.2.2 j (Or.inr hf)).2.1
    rcases hcase with ⟨_, _, rfl⟩ | ⟨_, _, rfl⟩ | ⟨hz, hp, _, _, rfl⟩ | ⟨_, _, _, rfl⟩ |
      ⟨_, _, _, rfl⟩ | ⟨_, _, _, rfl⟩
    · exact hdrain (by simpa using hc)
    · exact hdrain hc
    · rw [markClosed_isClosed] at hc
      by_cases hk : d1.done = c ∧ d1.done < d1.chans.length
      · exact ⟨by rw [← hk.1, hd], Or.inl ⟨t, now, rfl, hz, hp⟩⟩
      · rw [if_neg hk] at hc; exact hdrain hc
    · exact hdrain hc
    · exact hdrain (by simpa using hc)
    · exact hdrain (by simpa using hc)
  | expire j =>
    simp only [step, Option.some.injEq] at h
    subst h
    rw [setStatus_isClosed, ho] at hc
    cases hc
  | run j =>
    have hf : d.status j = TimerStatus.fired := by simpa [enabled] using hen
    simp only [step] at h
    rw [runCallback_some d j hi hf] at h
    cases h
    rw [setStatus_isClosed, markClosed_isClosed] at hc
    by_cases hk : d.done = c ∧ d.done < d.chans.length
    · obtain ⟨ht, ha, _⟩ := hi.2.2 j (Or.inr hf)
      exact ⟨hk.1.symm, Or.inr ⟨j, ht, hf, by rw [ha, hk.1], Or.inl rfl⟩⟩
    · rw [if_neg hk, ho] at hc; cases hc

/-- A transition that takes a signaled current signal to a not-signaled one is a call
of `Set` with the zero time or a time after the clock reading. -/
theorem unsignal_by (d e : deadline) (ev : Event) (h : step d ev = some e)
    (hc : d.isClosed d.done = true) (ho : e.isClosed e.done = false) :
    ∃ u v, ev = Event.set u v ∧ (Time.IsZero u = true ∨ v < u) := by
  cases ev with
  | set t now =>
    refine ⟨t, now, rfl, ?_⟩
    obtain ⟨d1, h1, hcase⟩ := Set_cases d e t now h
    rcases hcase with ⟨hz, _⟩ | ⟨hz, _⟩ | ⟨_, _, _, hl, rfl⟩ | ⟨_, _, hc1, rfl⟩ |
      ⟨_, hp, _⟩ | ⟨_, hp, _⟩
    · exact Or.inl hz
    · exact Or.inl hz
    · rw [markClosed_isClosed, markClosed_done] at ho
      simp [hl] at ho
    · rw [hc1] at ho; cases ho
    · exact Or.inr ((Until_pos t now).1 hp)
    · exact Or.inr ((Until_pos t now).1 hp)
  | expire j =>
    simp only [step, Option.some.injEq] at h
    subst h
    rw [setStatus_isClosed, setStatus_done, hc] at ho
    cases ho
  | run j =>
    simp only [step, deadline.runCallback] at h
    cases hcl : d.close d.done with
    | none => rw [hcl] at h; cases h
    | some x =>
      obtain ⟨_, h2, _⟩ := close_inv d x d.done hcl
      rw [hc] at h2; cases h2

/-- When timer `i` is pending and `done` is open, the expiry of `i` followed by its
callback closes the channel that is in `done`. -/
theorem fire_closes (e : deadline) (i : TimerRef) (hp : e.status i = TimerStatus.pending)
    (hw : e.done < e.chans.length) (ho : e.isClosed e.done = false) :
    ∃ e2, exec e [Event.expire i, Event.run i] = some e2 ∧ e2.isClosed e.done = true := by
  have hlt : i < e.timers.length := status_lt e i (by rw [hp]; decide)
  have h1 : enabled e (Event.expire i) = true := by simp [enabled, hp]
  have h2 : enabled (e.setStatus i TimerStatus.fired) (Event.run i) = true := by
    simp [enabled, setStatus_status, hlt]
  have h3 : (e.setStatus i TimerStatus.fired).runCallback i =
      some (((e.setStatus i TimerStatus.fired).markClosed e.done).setStatus i
        TimerStatus.finished) := by
    unfold deadline.runCallback
    rw [setStatus_done, close_some _ _ (by simpa using hw) (by simpa using ho)]
  refine ⟨((e.setStatus i TimerStatus.fired).markClosed e.done).setStatus i
    TimerStatus.finished, ?_, ?_⟩
  · simp only [exec, h1, if_true, step, h2, h3]
  · rw [setStatus_isClosed, markClosed_isClosed]
    simp [hw]

/-! ## The branches of `Set` while the new timer waits -/

/-- The past branch, lines 71-79. -/
theorem past_branch (d : deadline) (t now : Time) (hw : d.WF) (hs : d.Settable)
    (hz : Time.IsZero t = false) (hp : Until t now ≤ 0) :
    ∃ e, d.Set t now Progress.waiting = some e ∧ e.isClosed e.done = true ∧ e.timer = none := by
  obtain ⟨d1, h1⟩ := stopTimer_some d hw hs
  obtain ⟨ht, hd, hl, _, _, _⟩ := stopTimer_obs d d1 h1
  have hw1 : d1.done < d1.chans.length := by rw [hd, hl]; exact hw.1
  rw [Set_of_stop d d1 t now h1, hz]
  simp only [Bool.false_eq_true, if_false, if_pos hp]
  cases hc : d1.isClosed d1.done with
  | true => exact ⟨d1, by simp, hc, ht⟩
  | false =>
    refine ⟨d1.markClosed d1.done, by simp [close_some d1 d1.done hw1 hc], ?_, ?_⟩
    · rw [markClosed_isClosed]; simp [hw1]
    · simpa using ht

/-- The future branch, lines 81-85. -/
theorem future_branch (d : deadline) (t now : Time) (hw : d.WF) (hs : d.Settable)
    (hz : Time.IsZero t = false) (hf : now < t) :
    ∃ e i, d.Set t now Progress.waiting = some e ∧ e.timer = some i ∧ e.status i = TimerStatus.pending ∧
      i = d.timers.length ∧ e.isClosed e.done = false ∧
      (∀ j, d.timer = some j → d.status j = TimerStatus.pending →
        e.status j = TimerStatus.stopped) ∧
      ((∀ j, d.status j = TimerStatus.pending → d.timer = some j) →
        ∀ j, e.status j = TimerStatus.pending → j = i) := by
  obtain ⟨e, he⟩ := Set_some d t now hw hs
  obtain ⟨d1, h1, hcase⟩ := Set_cases d e t now he
  have hpos : ¬ Until t now ≤ 0 := not_le.2 ((Until_pos t now).2 hf)
  have hfut : e = d1.makeDone.afterFunc ∧ d1.isClosed d1.done = true ∨
      e = d1.afterFunc ∧ d1.isClosed d1.done = false := by
    rcases hcase with ⟨h, _⟩ | ⟨h, _⟩ | ⟨_, h, _⟩ | ⟨_, h, _⟩ | ⟨_, _, h3, h4⟩ | ⟨_, _, h3, h4⟩
    · rw [hz] at h; cases h
    · rw [hz] at h; cases h
    · exact absurd h hpos
    · exact absurd h hpos
    · exact Or.inl ⟨h4, h3⟩
    · exact Or.inr ⟨h4, h3⟩
  obtain ⟨ft, fc, _, _, fs⟩ := future_obs d1 e hfut
  obtain ⟨_, _, _, hlen, _, _⟩ := stopTimer_obs d d1 h1
  refine ⟨e, d.timers.length, he, by rw [ft, hlen], by rw [fs]; simp [hlen], rfl, fc, ?_, ?_⟩
  · intro j hj hp
    have hlt : j < d.timers.length := hw.2 j hj
    rw [fs, if_neg (by rw [hlen]; exact Nat.ne_of_lt hlt)]
    exact (stopTimer_status d d1 h1 j).1 hj hp
  · intro huniq j hj
    rw [fs] at hj
    by_cases hjl : j = d1.timers.length
    · rw [hjl, hlen]
    · rw [if_neg hjl] at hj
      obtain ⟨h2, h3⟩ := (stopTimer_status d d1 h1 j).2.1 hj
      exact absurd (huniq j h2) h3

/-! ## The race of `Set` with the timer it arms -/

/-- What the moves of a timer that has just been armed do to the state. -/
theorem raced_inv (e0 e : deadline) (i : TimerRef) (p : Progress)
    (hp : e0.status i = TimerStatus.pending) (h : e0.raced i p = some e) :
    e.timer = e0.timer ∧ e.done = e0.done ∧ e.chans.length = e0.chans.length ∧
    e.timers.length = e0.timers.length ∧
    (∀ j, (e.getTimer j).armedFor = (e0.getTimer j).armedFor) ∧
    (∀ j, j ≠ i → e.status j = e0.status j) ∧
    e.status i = p.status ∧
    (∀ c, e0.isClosed c = true → e.isClosed c = true) ∧
    (∀ c, e.isClosed c = true → e0.isClosed c = true ∨ (p = Progress.ran ∧ c = e0.done)) ∧
    (p = Progress.ran → e.isClosed e.done = true ∧ e0.isClosed e0.done = false) ∧
    exec e0 (p.trail i) = some e := by
  have hlt : i < e0.timers.length := status_lt e0 i (by rw [hp]; decide)
  have h1 : enabled e0 (Event.expire i) = true := by simp [enabled, hp]
  cases p with
  | waiting =>
    simp only [deadline.raced, Option.some.injEq] at h
    subst h
    exact ⟨rfl, rfl, rfl, rfl, fun _ => rfl, fun _ _ => rfl, hp, fun _ hc => hc,
      fun _ hc => Or.inl hc, fun hh => (by cases hh), rfl⟩
  | expired =>
    simp only [deadline.raced, Option.some.injEq] at h
    subst h
    refine ⟨rfl, rfl, rfl, by simp, fun j => by simp, fun j hj => ?_, ?_, fun _ hc => hc,
      fun _ hc => Or.inl hc, fun hh => (by cases hh), ?_⟩
    · rw [setStatus_status, if_neg (fun hh => hj hh.1.symm)]
    · rw [setStatus_status]; simp [hlt, Progress.status]
    · simp only [Progress.trail, exec, h1, if_true, step]
  | ran =>
    simp only [deadline.raced, deadline.runCallback] at h
    cases hc : (e0.setStatus i TimerStatus.fired).close
        (e0.setStatus i TimerStatus.fired).done with
    | none => rw [hc] at h; cases h
    | some x =>
      rw [hc] at h
      simp only [Option.some.injEq] at h
      obtain ⟨hw, ho, rfl⟩ := close_inv _ x _ hc
      subst h
      rw [setStatus_chans, setStatus_done] at hw
      rw [setStatus_isClosed, setStatus_done] at ho
      have h2 : enabled (e0.setStatus i TimerStatus.fired) (Event.run i) = true := by
        simp [enabled, setStatus_status, hlt]
      refine ⟨rfl, rfl, by simp, by simp, fun j => by simp, fun j hj => ?_, ?_,
        fun c hcl => ?_, fun c hcl => ?_, fun _ => ⟨?_, ho⟩, ?_⟩
      · rw [setStatus_status, if_neg (fun hh => hj hh.1.symm), markClosed_status,
          setStatus_status, if_neg (fun hh => hj hh.1.symm)]
      · rw [setStatus_status]; simp [hlt, Progress.status]
      · rw [setStatus_isClosed, markClosed_isClosed]
        split_ifs
        · rfl
        · exact hcl
      · rw [setStatus_isClosed, markClosed_isClosed] at hcl
        by_cases hk : (e0.setStatus i TimerStatus.fired).done = c ∧
            (e0.setStatus i TimerStatus.fired).done <
              (e0.setStatus i TimerStatus.fired).chans.length
        · exact Or.inr ⟨rfl, hk.1.symm⟩
        · rw [if_neg hk] at hcl; exact Or.inl hcl
      · rw [setStatus_isClosed, markClosed_isClosed]
        simp [hw]
      · simp only [Progress.trail, exec, h1, if_true, step, h2, deadline.runCallback, hc]

/-- The moves of a timer that has just been armed succeed when `done` is an open
channel. -/
theorem raced_some (e0 : deadline) (i : TimerRef) (p : Progress)
    (hw : e0.done < e0.chans.length) (ho : e0.isClosed e0.done = false) :
    ∃ e, e0.raced i p = some e := by
  cases p with
  | waiting => exact ⟨_, rfl⟩
  | expired => exact ⟨_, rfl⟩
  | ran =>
    simp only [deadline.raced, deadline.runCallback]
    rw [close_some _ _ (by simpa using hw) (by simpa using ho)]
    exact ⟨_, rfl⟩

/-- After the timer has got as far as `p`, its remaining moves close the channel
that is in `done`. -/
theorem rest_closes (e0 e : deadline) (i : TimerRef) (p : Progress)
    (hp : e0.status i = TimerStatus.pending) (hw : e0.done < e0.chans.length)
    (ho : e0.isClosed e0.done = false) (h : e0.raced i p = some e) :
    ∃ e2, exec e (p.rest i) = some e2 ∧ e2.isClosed e0.done = true := by
  have hlt : i < e0.timers.length := status_lt e0 i (by rw [hp]; decide)
  cases p with
  | waiting =>
    simp only [deadline.raced, Option.some.injEq] at h
    subst h
    exact fire_closes e0 i hp hw ho
  | expired =>
    simp only [deadline.raced, Option.some.injEq] at h
    subst h
    have h2 : enabled (e0.setStatus i TimerStatus.fired) (Event.run i) = true := by
      simp [enabled, setStatus_status, hlt]
    have h3 : (e0.setStatus i TimerStatus.fired).runCallback i =
        some (((e0.setStatus i TimerStatus.fired).markClosed e0.done).setStatus i
          TimerStatus.finished) := by
      unfold deadline.runCallback
      rw [setStatus_done, close_some _ _ (by simpa using hw) (by simpa using ho)]
    refine ⟨((e0.setStatus i TimerStatus.fired).markClosed e0.done).setStatus i
      TimerStatus.finished, ?_, ?_⟩
    · simp only [Progress.rest, exec, h2, if_true, step, h3]
    · rw [setStatus_isClosed, markClosed_isClosed]
      simp [hw]
  | ran =>
    obtain ⟨_, hd, _, _, _, _, _, _, _, hr, _⟩ := raced_inv e0 e i Progress.ran hp h
    refine ⟨e, rfl, ?_⟩
    rw [← hd]; exact (hr rfl).1

/-- In the zero and past branches no timer is armed: the state on return does not
depend on `p`. -/
theorem Set_nofuture (d : deadline) (t now : Time) (p : Progress)
    (h : Time.IsZero t = true ∨ Until t now ≤ 0) :
    d.Set t now p = d.Set t now Progress.waiting := by
  unfold deadline.Set
  cases d.stopTimer with
  | none => rfl
  | some d1 =>
    simp only
    cases hz : Time.IsZero t with
    | true => simp
    | false =>
      rcases h with h | h
      · rw [hz] at h; cases h
      · simp [h]

/-- In the future branch the state on return is the state that lines 42-85 leave,
after the new timer has got as far as `p`. -/
theorem Set_future_eq (d e0 : deadline) (t now : Time) (p : Progress)
    (hz : Time.IsZero t = false) (hf : 0 < Until t now)
    (h : d.Set t now Progress.waiting = some e0) :
    d.Set t now p = e0.raced d.timers.length p := by
  have hnp : ¬ Until t now ≤ 0 := not_le.2 hf
  cases h1 : d.stopTimer with
  | none => simp [deadline.Set, h1] at h
  | some d1 =>
    obtain ⟨_, _, _, hlen, _, _⟩ := stopTimer_obs d d1 h1
    have hl2 : (if d1.isClosed d1.done = true then d1.makeDone else d1).timers.length =
        d.timers.length := by
      split_ifs <;> simp [hlen]
    unfold deadline.Set at h ⊢
    rw [h1] at h ⊢
    simp only [hz, Bool.false_eq_true, if_false, if_neg hnp, hl2] at h ⊢
    simp only [deadline.raced, Option.some.injEq] at h
    rw [h]

/-- Every return of `Set` is the state that lines 42-85 leave, followed, in the
future branch, by the moves that the new timer has made. -/
theorem Set_ret (d e : deadline) (t now : Time) (p : Progress)
    (h : d.Set t now p = some e) :
    ∃ e0, d.Set t now Progress.waiting = some e0 ∧
      ((e = e0 ∧ (Time.IsZero t = true ∨ Until t now ≤ 0)) ∨
       (Time.IsZero t = false ∧ 0 < Until t now ∧
        e0.status d.timers.length = TimerStatus.pending ∧
        e0.timer = some d.timers.length ∧ e0.raced d.timers.length p = some e)) := by
  by_cases hnf : Time.IsZero t = true ∨ Until t now ≤ 0
  · rw [Set_nofuture d t now p hnf] at h
    exact ⟨e, h, Or.inl ⟨rfl, hnf⟩⟩
  · simp only [not_or, Bool.not_eq_true, not_le] at hnf
    obtain ⟨hz, hf⟩ := hnf
    cases h0 : d.Set t now Progress.waiting with
    | none =>
      exfalso
      cases h1 : d.stopTimer with
      | none => simp [deadline.Set, h1] at h
      | some d1 =>
        rw [Set_of_stop d d1 t now h1, hz] at h0
        simp [not_le.2 hf] at h0
    | some e0 =>
      refine ⟨e0, rfl, Or.inr ⟨hz, hf, ?_, ?_, ?_⟩⟩
      · obtain ⟨d1, h1, hcase⟩ := Set_cases d e0 t now h0
        obtain ⟨_, _, _, hlen, _, _⟩ := stopTimer_obs d d1 h1
        have hfut : e0 = d1.makeDone.afterFunc ∧ d1.isClosed d1.done = true ∨
            e0 = d1.afterFunc ∧ d1.isClosed d1.done = false := by
          rcases hcase with ⟨hh, _⟩ | ⟨hh, _⟩ | ⟨_, hh, _⟩ | ⟨_, hh, _⟩ | ⟨_, _, h3, h4⟩ |
            ⟨_, _, h3, h4⟩
          · rw [hz] at hh; cases hh
          · rw [hz] at hh; cases hh
          · exact absurd hh (not_le.2 hf)
          · exact absurd hh (not_le.2 hf)
          · exact Or.inl ⟨h4, h3⟩
          · exact Or.inr ⟨h4, h3⟩
        obtain ⟨_, _, _, _, fs⟩ := future_obs d1 e0 hfut
        rw [fs, hlen]; simp
      · obtain ⟨d1, h1, hcase⟩ := Set_cases d e0 t now h0
        obtain ⟨_, _, _, hlen, _, _⟩ := stopTimer_obs d d1 h1
        have hfut : e0 = d1.makeDone.afterFunc ∧ d1.isClosed d1.done = true ∨
            e0 = d1.afterFunc ∧ d1.isClosed d1.done = false := by
          rcases hcase with ⟨hh, _⟩ | ⟨hh, _⟩ | ⟨_, hh, _⟩ | ⟨_, hh, _⟩ | ⟨_, _, h3, h4⟩ |
            ⟨_, _, h3, h4⟩
          · rw [hz] at hh; cases hh
          · rw [hz] at hh; cases hh
          · exact absurd hh (not_le.2 hf)
          · exact absurd hh (not_le.2 hf)
          · exact Or.inl ⟨h4, h3⟩
          · exact Or.inr ⟨h4, h3⟩
        obtain ⟨ft, _, _, _, _⟩ := future_obs d1 e0 hfut
        rw [ft, hlen]
      · rw [← Set_future_eq d e0 t now p hz hf h0]; exact h

/-- Every return of `Set` is a run: the transition `set` followed by the moves that
the new timer has made. -/
theorem Set_as_run (d e : deadline) (t now : Time) (p : Progress)
    (h : d.Set t now p = some e) :
    ∃ es, exec d (Event.set t now :: es) = some e := by
  obtain ⟨e0, h0, hcase⟩ := Set_ret d e t now p h
  rcases hcase with ⟨rfl, _⟩ | ⟨_, _, hp, _, hr⟩
  · exact ⟨[], by simp [exec, enabled, step, h0]⟩
  · refine ⟨p.trail d.timers.length, ?_⟩
    have := (raced_inv e0 e d.timers.length p hp hr).2.2.2.2.2.2.2.2.2.2
    simp [exec, enabled, step, h0, this]

/-- `Set` returns from every well-formed settable state, whatever the new timer does. -/
theorem Set_ret_some (d : deadline) (t now : Time) (p : Progress) (hw : d.WF)
    (hs : d.Settable) : ∃ e, d.Set t now p = some e := by
  by_cases hnf : Time.IsZero t = true ∨ Until t now ≤ 0
  · rw [Set_nofuture d t now p hnf]
    exact Set_some d t now hw hs
  · simp only [not_or, Bool.not_eq_true, not_le] at hnf
    obtain ⟨hz, hf⟩ := hnf
    obtain ⟨e0, _, h0, _, _, _, hc0, _⟩ :=
      future_branch d t now hw hs hz ((Until_pos t now).1 hf)
    rw [Set_future_eq d e0 t now p hz hf h0]
    exact raced_some e0 d.timers.length p (Set_WF d e0 t now hw h0).1.1 hc0

/-- On return of `Set` the pointers are valid and `Set` can be called again. -/
theorem Set_ret_WF (d e : deadline) (t now : Time) (p : Progress) (hw : d.WF)
    (h : d.Set t now p = some e) : e.WF ∧ e.Settable := by
  obtain ⟨e0, h0, hcase⟩ := Set_ret d e t now p h
  obtain ⟨hw0, hs0⟩ := Set_WF d e0 t now hw h0
  rcases hcase with ⟨rfl, _⟩ | ⟨_, _, hp, ht, hr⟩
  · exact ⟨hw0, hs0⟩
  · obtain ⟨rt, rd, rc, rl, _, _, rs, _, _, rr, _⟩ := raced_inv e0 e d.timers.length p hp hr
    refine ⟨⟨by rw [rd, rc]; exact hw0.1, fun i hi => ?_⟩, ?_⟩
    · rw [rl]; exact hw0.2 i (by rw [← rt]; exact hi)
    · unfold deadline.Settable
      rw [rt, ht]
      simp only
      rw [rs]
      cases p with
      | waiting => exact Or.inl rfl
      | expired => exact Or.inr (Or.inl rfl)
      | ran => exact Or.inr (Or.inr (rr rfl).1)

/-- No return of `Set` leaves a channel open that was closed before the call. -/
theorem Set_ret_mono (d e : deadline) (t now : Time) (p : Progress) (c : Chan)
    (h : d.Set t now p = some e) (hc : d.isClosed c = true) : e.isClosed c = true := by
  obtain ⟨e0, h0, hcase⟩ := Set_ret d e t now p h
  have hc0 := Set_mono d e0 t now c h0 hc
  rcases hcase with ⟨rfl, _⟩ | ⟨_, _, hp, _, hr⟩
  · exact hc0
  · exact (raced_inv e0 e d.timers.length p hp hr).2.2.2.2.2.2.2.1 c hc0

/-- On return of `Set` the timers that existed before the call are as lines 45-52
left them. -/
theorem Set_ret_status_old (d e : deadline) (t now : Time) (p : Progress)
    (h : d.Set t now p = some e) :
    ∃ d1, d.stopTimer = some d1 ∧ d.timers.length ≤ e.timers.length ∧
      ∀ j, j < d.timers.length → e.status j = d1.status j := by
  obtain ⟨e0, h0, hcase⟩ := Set_ret d e t now p h
  obtain ⟨d1, h1, hlen, hold⟩ := Set_status_old d e0 t now h0
  refine ⟨d1, h1, ?_⟩
  rcases hcase with ⟨rfl, _⟩ | ⟨_, _, hp, _, hr⟩
  · exact ⟨hlen, fun j hj => (hold j hj).1⟩
  · obtain ⟨_, _, _, rl, _, rs, _⟩ := raced_inv e0 e d.timers.length p hp hr
    refine ⟨by rw [rl]; exact hlen, fun j hj => ?_⟩
    rw [rs j (Nat.ne_of_lt hj), (hold j hj).1]

/-- The zero branch, whatever `p`. -/
theorem zero_ret (d : deadline) (t now : Time) (p : Progress) (hw : d.WF)
    (hs : d.Settable) (hz : Time.IsZero t = true) :
    ∃ e, d.Set t now p = some e ∧ e.isClosed e.done = false ∧ e.timer = none := by
  rw [Set_nofuture d t now p (Or.inl hz)]
  exact zero_branch d t now hw hs hz

/-- The past branch, whatever `p`. -/
theorem past_ret (d : deadline) (t now : Time) (p : Progress) (hw : d.WF)
    (hs : d.Settable) (hz : Time.IsZero t = false) (hp : Until t now ≤ 0) :
    ∃ e, d.Set t now p = some e ∧ e.isClosed e.done = true ∧ e.timer = none := by
  rw [Set_nofuture d t now p (Or.inr hp)]
  exact past_branch d t now hw hs hz hp

/-- The future branch on return: the new timer is in the timer field and has got as
far as `p`; the signal is signaled exactly when its callback has run. -/
theorem future_ret (d : deadline) (t now : Time) (p : Progress) (hw : d.WF)
    (hs : d.Settable) (hz : Time.IsZero t = false) (hf : now < t) :
    ∃ e i, d.Set t now p = some e ∧ e.timer = some i ∧ i = d.timers.length ∧
      e.status i = p.status ∧
      (∀ j, d.timer = some j → d.status j = TimerStatus.pending →
        e.status j = TimerStatus.stopped) ∧
      ((∀ j, d.status j = TimerStatus.pending → d.timer = some j) →
        ∀ j, e.status j = TimerStatus.pending → j = i) ∧
      (e.isClosed e.done = true ↔ p = Progress.ran) := by
  have hpos : 0 < Until t now := (Until_pos t now).2 hf
  obtain ⟨e0, i, h0, ht0, hs0, hi, hc0, hprev, huniq⟩ := future_branch d t now hw hs hz hf
  subst hi
  obtain ⟨e, he⟩ := raced_some e0 d.timers.length p (Set_WF d e0 t now hw h0).1.1 hc0
  obtain ⟨rt, rd, _, _, _, rs, ri, _, rc, rr, _⟩ := raced_inv e0 e d.timers.length p hs0 he
  refine ⟨e, d.timers.length, by rw [Set_future_eq d e0 t now p hz hpos h0]; exact he,
    by rw [rt, ht0], rfl, ri, fun j hj hp => ?_, fun hu j hj => ?_, ?_, ?_⟩
  · rw [rs j (Nat.ne_of_lt (hw.2 j hj))]
    exact hprev j hj hp
  · by_cases hji : j = d.timers.length
    · exact hji
    · rw [rs j hji] at hj
      exact huniq hu j hj
  · intro hc
    rcases rc e.done hc with h | ⟨h, _⟩
    · rw [rd, hc0] at h; cases h
    · exact h
  · intro hp
    exact (rr hp).1

/-- When lines 54-86 replace the channel in `done`, as long as the new timer waits. -/
theorem replaces_waiting (d : deadline) (t now : Time) (hw : d.WF) (hs : d.Settable) :
    ∃ d1 e, d.stopTimer = some d1 ∧ d.Set t now Progress.waiting = some e ∧
      (e.Done.1 ≠ d.Done.1 ↔
        d1.isClosed d1.done = true ∧ (Time.IsZero t = true ∨ now < t)) ∧
      (e.Done.1 ≠ d.Done.1 → e.done = d.chans.length ∧ e.isClosed e.done = false) ∧
      (d1.isClosed d1.done = false → Time.IsZero t = false → now < t →
        ∃ i e2, e.timer = some i ∧ exec e [Event.expire i, Event.run i] = some e2 ∧
          e2.isClosed d.Done.1 = true) ∧
      (∀ ev x, step d ev = some x → d.isClosed d.done = true →
        x.isClosed x.done = false →
        ∃ u v, ev = Event.set u v ∧ (Time.IsZero u = true ∨ v < u)) := by
  obtain ⟨e, he⟩ := Set_some d t now hw hs
  obtain ⟨d1, h1, hcase⟩ := Set_cases d e t now he
  obtain ⟨_, hd, hl, _, _, _⟩ := stopTimer_obs d d1 h1
  have hne : d1.chans.length ≠ d.done := by rw [hl]; exact Nat.ne_of_gt hw.1
  refine ⟨d1, e, h1, he, ?_, ?_, ?_, fun ev x hx hc ho => unsignal_by d x ev hx hc ho⟩
  · show e.done ≠ d.done ↔ _
    rcases hcase with ⟨hz, hc, rfl⟩ | ⟨_, hc, rfl⟩ | ⟨_, _, hc, _, rfl⟩ | ⟨hz, hp, hc, rfl⟩ |
      ⟨_, hp, hc, rfl⟩ | ⟨_, _, hc, rfl⟩
    · exact ⟨fun _ => ⟨hc, Or.inl hz⟩, fun _ => by simpa using hne⟩
    · exact ⟨fun h => absurd hd h, fun h => by rw [hc] at h; cases h.1⟩
    · exact ⟨fun h => absurd hd h, fun h => by rw [hc] at h; cases h.1⟩
    · refine ⟨fun h => absurd hd h, fun h => ?_⟩
      rcases h.2 with h2 | h2
      · rw [hz] at h2; cases h2
      · exact absurd ((Until_pos t now).2 h2) (not_lt.2 hp)
    · exact ⟨fun _ => ⟨hc, Or.inr ((Until_pos t now).1 hp)⟩, fun _ => by simpa using hne⟩
    · exact ⟨fun h => absurd hd h, fun h => by rw [hc] at h; cases h.1⟩
  · show e.done ≠ d.done → _
    rcases hcase with ⟨_, _, rfl⟩ | ⟨_, _, rfl⟩ | ⟨_, _, _, _, rfl⟩ | ⟨_, _, _, rfl⟩ |
      ⟨_, _, _, rfl⟩ | ⟨_, _, _, rfl⟩
    · exact fun _ => ⟨by simp [hl], makeDone_open d1⟩
    · exact fun h => absurd hd h
    · exact fun h => absurd hd h
    · exact fun h => absurd hd h
    · exact fun _ => ⟨by simp [hl], by
        rw [afterFunc_isClosed, afterFunc_done]; exact makeDone_open d1⟩
    · exact fun h => absurd hd h
  · intro ho hz hf
    rcases hcase with ⟨_, hc, _⟩ | ⟨hz2, _⟩ | ⟨_, hp, _⟩ | ⟨_, _, hc, _⟩ | ⟨_, _, hc, _⟩ |
      ⟨_, _, _, rfl⟩
    · rw [hc] at ho; cases ho
    · rw [hz] at hz2; cases hz2
    · exact absurd ((Until_pos t now).2 hf) (not_lt.2 hp)
    · rw [hc] at ho; cases ho
    · rw [hc] at ho; cases ho
    · have hp : d1.afterFunc.status d1.timers.length = TimerStatus.pending := by
        rw [afterFunc_status]; simp
      obtain ⟨e2, h2, h3⟩ := fire_closes d1.afterFunc d1.timers.length hp
        (by rw [afterFunc_done, afterFunc_chans, hd, hl]; exact hw.1)
        (by rw [afterFunc_isClosed, afterFunc_done]; exact ho)
      refine ⟨d1.timers.length, e2, rfl, h2, ?_⟩
      show e2.isClosed d.done = true
      rw [← hd]; exact h3

/-! ## The contract of `Set`, case by case -/

/-- C1: from every prior state (no timer, a pending timer, a timer in flight, signal
signaled or not), `Set(t)` with a non-zero `t` whose `time.Until` is at most zero
(exactly zero included) returns, and on return the current signal is signaled and
the timer field is nil. -/
theorem Set_past_signals (d : deadline) (t now : Time) (p : Progress) (hw : d.WF)
    (hs : d.Settable) (hz : Time.IsZero t = false) (hp : Until t now ≤ 0) :
    ∃ e, d.Set t now p = some e ∧ e.isClosed e.done = true ∧ e.timer = none :=
  past_ret d t now p hw hs hz hp

/-- Witness of C1: a pending timer and an open channel, then `Set` with a duration of
exactly zero. -/
theorem Set_past_signals_witness :
    ∃ e, (deadline.mk [false] [⟨TimerStatus.pending, 0⟩] (some 0) 0).Set 7 7
        Progress.waiting = some e ∧
      e.isClosed e.done = true ∧ e.timer = none :=
  Set_past_signals ⟨[false], [⟨TimerStatus.pending, 0⟩], some 0, 0⟩ 7 7 Progress.waiting
    (by decide) (by decide) (by decide) (by decide)

/-- Counterexample to C2 as stated: `New()` then `Set` one nanosecond ahead, where the
new timer has run its callback before `Set` returns: on return the signal is
signaled and the timer in the timer field is not pending. -/
theorem Set_future_arms_counterexample :
    ∃ e, New.Set 8 7 Progress.ran = some e ∧ e.isClosed e.done = true ∧
      e.timer = some 0 ∧ e.status 0 = TimerStatus.finished :=
  ⟨⟨[true], [⟨TimerStatus.finished, 0⟩], some 0, 0⟩, by decide, by decide, by decide,
    by decide⟩

/-- C2, amended: from every prior state, `Set(t)` with a non-zero `t` strictly after
the clock reading returns with a newly armed timer in the timer field; a previous
pending timer is stopped, and no other timer is pending when none other was before.
On return the signal is signaled exactly when the new timer has already run its
callback; when the new timer has not expired yet it is pending and the signal is
not signaled. -/
theorem Set_future_arms (d : deadline) (t now : Time) (p : Progress) (hw : d.WF)
    (hs : d.Settable) (hz : Time.IsZero t = false) (hf : now < t) :
    ∃ e i, d.Set t now p = some e ∧ e.timer = some i ∧ i = d.timers.length ∧
      e.status i = p.status ∧
      (∀ j, d.timer = some j → d.status j = TimerStatus.pending →
        e.status j = TimerStatus.stopped) ∧
      ((∀ j, d.status j = TimerStatus.pending → d.timer = some j) →
        ∀ j, e.status j = TimerStatus.pending → j = i) ∧
      (e.isClosed e.done = true ↔ p = Progress.ran) ∧
      (p = Progress.waiting →
        e.status i = TimerStatus.pending ∧ e.isClosed e.done = false) := by
  obtain ⟨e, i, he, ht, hi, hst, hprev, huniq, hc⟩ := future_ret d t now p hw hs hz hf
  refine ⟨e, i, he, ht, hi, hst, hprev, huniq, hc, fun hp => ?_⟩
  subst hp
  refine ⟨hst, ?_⟩
  cases hcl : e.isClosed e.done with
  | false => rfl
  | true => exact absurd (hc.1 hcl) (by decide)

/-- Witness of C2, amended: a pending timer and a signaled channel, then `Set` one
nanosecond ahead, the new timer not yet expired on return. -/
theorem Set_future_arms_witness :
    ∃ e i, (deadline.mk [true] [⟨TimerStatus.pending, 0⟩] (some 0) 0).Set 8 7
        Progress.waiting = some e ∧
      e.timer = some i ∧
      i = (deadline.mk [true] [⟨TimerStatus.pending, 0⟩] (some 0) 0).timers.length ∧
      e.status i = Progress.waiting.status ∧
      (∀ j, (deadline.mk [true] [⟨TimerStatus.pending, 0⟩] (some 0) 0).timer = some j →
        (deadline.mk [true] [⟨TimerStatus.pending, 0⟩] (some 0) 0).status j =
          TimerStatus.pending → e.status j = TimerStatus.stopped) ∧
      ((∀ j, (deadline.mk [true] [⟨TimerStatus.pending, 0⟩] (some 0) 0).status j =
          TimerStatus.pending →
          (deadline.mk [true] [⟨TimerStatus.pending, 0⟩] (some 0) 0).timer = some j) →
        ∀ j, e.status j = TimerStatus.pending → j = i) ∧
      (e.isClosed e.done = true ↔ Progress.waiting = Progress.ran) ∧
      (Progress.waiting = Progress.waiting →
        e.status i = TimerStatus.pending ∧ e.isClosed e.done = false) :=
  Set_future_arms ⟨[true], [⟨TimerStatus.pending, 0⟩], some 0, 0⟩ 8 7 Progress.waiting
    (by decide) (by decide) (by decide) (by decide)

/-- C3: from every prior state, `Set` with the zero time returns with the current
signal not signaled and the timer field nil; in particular this is the state after
`Set` with any future time (such as one hour ahead), whatever its timer has done
since, followed by `Set` with the zero time. -/
theorem Set_zero_resets (d : deadline) (t now : Time) (p : Progress) (hw : d.WF)
    (hs : d.Settable) (hz : Time.IsZero t = true) :
    (∃ e, d.Set t now p = some e ∧ e.isClosed e.done = false ∧ e.timer = none) ∧
    (∀ (u now0 : Time) (q : Progress), Time.IsZero u = false → now0 < u →
      ∃ d1 e, d.Set u now0 q = some d1 ∧ d1.Set t now p = some e ∧
        e.isClosed e.done = false ∧ e.timer = none) := by
  refine ⟨zero_ret d t now p hw hs hz, fun u now0 q hu hlt => ?_⟩
  obtain ⟨d1, _, h1, _⟩ := future_ret d u now0 q hw hs hu hlt
  obtain ⟨hw1, hs1⟩ := Set_ret_WF d d1 u now0 q hw h1
  obtain ⟨e, he⟩ := zero_ret d1 t now p hw1 hs1 hz
  exact ⟨d1, e, h1, he⟩

/-- Witness of C3: a timer whose callback is in flight, then `Set` with the zero time. -/
theorem Set_zero_resets_witness :
    (∃ e, (deadline.mk [false] [⟨TimerStatus.fired, 0⟩] (some 0) 0).Set 0 5
        Progress.waiting = some e ∧
      e.isClosed e.done = false ∧ e.timer = none) ∧
    (∀ (u now0 : Time) (q : Progress), Time.IsZero u = false → now0 < u →
      ∃ d1 e,
        (deadline.mk [false] [⟨TimerStatus.fired, 0⟩] (some 0) 0).Set u now0 q = some d1 ∧
        d1.Set 0 5 Progress.waiting = some e ∧ e.isClosed e.done = false ∧
        e.timer = none) :=
  Set_zero_resets ⟨[false], [⟨TimerStatus.fired, 0⟩], some 0, 0⟩ 0 5 Progress.waiting
    (by decide) (by decide) (by decide)

/-- C4: when the current signal is signaled, `Set` with the zero time returns, the
handle that `Done()` returns afterwards is a different channel from the one it
returned before, the old channel is still closed and the new one is open; and no
call of `Set`, whatever its argument, reopens a closed channel. -/
theorem Set_zero_swaps (d : deadline) (t now : Time) (p : Progress)
    (hc : d.isClosed d.Done.1 = true) (hz : Time.IsZero t = true) :
    (∃ e, d.Set t now p = some e ∧ e.Done.1 ≠ d.Done.1 ∧ e.isClosed d.Done.1 = true ∧
      e.isClosed e.Done.1 = false) ∧
    (∀ (x y : deadline) (u v : Time) (q : Progress) (c : Chan), x.Set u v q = some y →
      x.isClosed c = true → y.isClosed c = true) := by
  refine ⟨?_, fun x y u v q c h hx => Set_ret_mono x y u v q c h hx⟩
  have hc' : d.isClosed d.done = true := hc
  obtain ⟨d1, h1⟩ := stopTimer_some_closed d hc'
  obtain ⟨_, hd, hl, _, hm, _⟩ := stopTimer_obs d d1 h1
  have hc1 : d1.isClosed d1.done = true := by rw [hd]; exact hm _ hc'
  have hlt : d.done < d.chans.length := isClosed_lt d d.done hc'
  refine ⟨d1.makeDone, ?_, ?_, ?_, ?_⟩
  · rw [Set_nofuture d t now p (Or.inl hz), Set_of_stop d d1 t now h1, hz, hc1]; simp
  · show d1.makeDone.done ≠ d.done
    rw [makeDone_done, hl]
    exact Nat.ne_of_gt hlt
  · show d1.makeDone.isClosed d.done = true
    rw [makeDone_isClosed]; exact hm _ hc'
  · exact makeDone_open d1

/-- Witness of C4: the state after `New()` and a `Set` in the past. -/
theorem Set_zero_swaps_witness :
    (∃ e, (deadline.mk [true] [] none 0).Set 0 5 Progress.waiting = some e ∧
      e.Done.1 ≠ (deadline.mk [true] [] none 0).Done.1 ∧
      e.isClosed (deadline.mk [true] [] none 0).Done.1 = true ∧
      e.isClosed e.Done.1 = false) ∧
    (∀ (x y : deadline) (u v : Time) (q : Progress) (c : Chan), x.Set u v q = some y →
      x.isClosed c = true → y.isClosed c = true) :=
  Set_zero_swaps ⟨[true], [], none, 0⟩ 0 5 Progress.waiting (by decide) (by decide)

/-- Counterexample to C6 as stated, from `New()` with `t = 9`.  First: the clock
reads 5 at the first call and 9 at the second, so `t` is ahead of the first reading
and not of the second; after one call the signal is not signaled and a timer is set,
after two the signal is signaled and no timer is set.  Second: the clock reads 5
and 6, and the timer of the second call has run its callback before that call
returns; after two calls the signal is signaled. -/
theorem Set_twice_same_counterexample :
    (∃ d1 d2, New.Set 9 5 Progress.waiting = some d1 ∧
      d1.Set 9 9 Progress.waiting = some d2 ∧
      d1.observe = (false, true) ∧ d2.observe = (true, false)) ∧
    (∃ d1 d2, New.Set 9 5 Progress.waiting = some d1 ∧
      d1.Set 9 6 Progress.ran = some d2 ∧
      d1.observe = (false, true) ∧ d2.observe = (true, true)) :=
  ⟨⟨⟨[false], [⟨TimerStatus.pending, 0⟩], some 0, 0⟩,
     ⟨[true], [⟨TimerStatus.stopped, 0⟩], none, 0⟩, by decide, by decide, by decide,
     by decide⟩,
   ⟨⟨[false], [⟨TimerStatus.pending, 0⟩], some 0, 0⟩,
     ⟨[true], [⟨TimerStatus.stopped, 0⟩, ⟨TimerStatus.finished, 0⟩], some 1, 0⟩,
     by decide, by decide, by decide, by decide⟩⟩

/-- C6, amended: from every prior state, `Set(t)` followed by `Set(t)` returns and
leaves the same observable state (signal signaled or not, timer present or not) as
the first call alone, provided `t` falls in the same case at the two clock readings
(the zero time; or at or before both; or after both) and, when `t` is after both,
the timer that a call arms has run its callback before the call returns either in
both calls or in neither. -/
theorem Set_twice_same (d : deadline) (t now1 now2 : Time) (p1 p2 : Progress)
    (hw : d.WF) (hs : d.Settable)
    (hsame : Time.IsZero t = false → (t ≤ now1 ↔ t ≤ now2))
    (hrace : Time.IsZero t = false → now1 < t →
      (p1 = Progress.ran ↔ p2 = Progress.ran)) :
    ∃ d1 d2, d.Set t now1 p1 = some d1 ∧ d1.Set t now2 p2 = some d2 ∧
      d2.observe = d1.observe := by
  obtain ⟨d1, h1⟩ := Set_ret_some d t now1 p1 hw hs
  obtain ⟨hw1, hs1⟩ := Set_ret_WF d d1 t now1 p1 hw h1
  cases hz : Time.IsZero t with
  | true =>
    obtain ⟨e1, he1, hc1, ht1⟩ := zero_ret d t now1 p1 hw hs hz
    obtain ⟨e2, he2, hc2, ht2⟩ := zero_ret d1 t now2 p2 hw1 hs1 hz
    rw [h1] at he1; cases he1
    exact ⟨d1, e2, h1, he2, by simp [deadline.observe, hc1, hc2, ht1, ht2]⟩
  | false =>
    have hiff := hsame hz
    by_cases hp : t ≤ now1
    · obtain ⟨e1, he1, hc1, ht1⟩ :=
        past_ret d t now1 p1 hw hs hz ((Until_nonpos t now1).2 hp)
      obtain ⟨e2, he2, hc2, ht2⟩ :=
        past_ret d1 t now2 p2 hw1 hs1 hz ((Until_nonpos t now2).2 (hiff.1 hp))
      rw [h1] at he1; cases he1
      exact ⟨d1, e2, h1, he2, by simp [deadline.observe, hc1, hc2, ht1, ht2]⟩
    · have hf1 : now1 < t := not_le.1 hp
      have hf2 : now2 < t := not_le.1 (fun h => hp (hiff.2 h))
      obtain ⟨e1, i1, he1, ht1, _, _, _, _, hc1⟩ := future_ret d t now1 p1 hw hs hz hf1
      obtain ⟨e2, i2, he2, ht2, _, _, _, _, hc2⟩ :=
        future_ret d1 t now2 p2 hw1 hs1 hz hf2
      rw [h1] at he1; cases he1
      have hcl : e2.isClosed e2.done = d1.isClosed d1.done := by
        rw [Bool.eq_iff_iff, hc1, hc2]
        exact (hrace hz hf1).symm
      exact ⟨d1, e2, h1, he2, by simp [deadline.observe, hcl, ht1, ht2]⟩

/-- Witness of C6, amended: a signaled deadline, set twice to an instant that is ahead
of both clock readings, the new timer in flight on the first return and still
waiting on the second. -/
theorem Set_twice_same_witness :
    ∃ d1 d2, (deadline.mk [true] [] none 0).Set 9 5 Progress.expired = some d1 ∧
      d1.Set 9 6 Progress.waiting = some d2 ∧ d2.observe = d1.observe :=
  Set_twice_same ⟨[true], [], none, 0⟩ 9 5 6 Progress.expired Progress.waiting
    (by decide) (by decide) (by decide) (by decide)

/-- C8: `Done()` returns the `done` field and leaves the state as it is, so a second
call returns the same channel. -/
theorem Done_reads (d : deadline) :
    d.Done.1 = d.done ∧ d.Done.2 = d ∧ d.Done.2.Done.1 = d.Done.1 :=
  ⟨rfl, rfl, rfl⟩

/-- C9: `Set` returns with a different channel in `done` exactly when the channel
is closed at the check of lines 54-60 (after lines 45-52 stopped or drained the
previous timer) and `t` is the zero time or after the clock reading; the new channel
did not exist before, and on return it is closed only if the timer armed by this
call has already run its callback.  When the channel is open at the check and `t` is
in the future, the channel stays, and the moves that the new timer still has to make
close it.  A transition that takes a signaled current signal to a not-signaled one is
a `Set` with the zero time or a future time. -/
theorem Set_replaces_iff (d : deadline) (t now : Time) (p : Progress) (hw : d.WF)
    (hs : d.Settable) :
    ∃ d1 e, d.stopTimer = some d1 ∧ d.Set t now p = some e ∧
      (e.Done.1 ≠ d.Done.1 ↔
        d1.isClosed d1.done = true ∧ (Time.IsZero t = true ∨ now < t)) ∧
      (e.Done.1 ≠ d.Done.1 → e.done = d.chans.length ∧
        (e.isClosed e.done = true ↔ Time.IsZero t = false ∧ p = Progress.ran)) ∧
      (d1.isClosed d1.done = false → Time.IsZero t = false → now < t →
        ∃ i e2, e.timer = some i ∧ exec e (p.rest i) = some e2 ∧
          e2.isClosed d.Done.1 = true) ∧
      (∀ ev x, step d ev = some x → d.isClosed d.done = true →
        x.isClosed x.done = false →
        ∃ u v, ev = Event.set u v ∧ (Time.IsZero u = true ∨ v < u)) := by
  obtain ⟨e, he⟩ := Set_ret_some d t now p hw hs
  obtain ⟨e0, h0, hcase⟩ := Set_ret d e t now p he
  obtain ⟨d1, e0', h1, h0', c1, c2, _, c4⟩ := replaces_waiting d t now hw hs
  rw [h0] at h0'
  cases h0'
  have hw0 : e0.done < e0.chans.length := (Set_WF d e0 t now hw h0).1.1
  refine ⟨d1, e, h1, he, ?_, ?_, ?_, c4⟩
  · rcases hcase with ⟨rfl, _⟩ | ⟨_, _, hp, _, hr⟩
    · exact c1
    · obtain ⟨_, rd, _⟩ := raced_inv e0 e d.timers.length p hp hr
      show e.done ≠ d.done ↔ _
      rw [rd]; exact c1
  · rcases hcase with ⟨rfl, hnf⟩ | ⟨hz, _, hp, _, hr⟩
    · intro hne
      obtain ⟨f1, f2⟩ := c2 hne
      refine ⟨f1, ⟨fun h => ?_, fun h => ?_⟩⟩
      · rw [f2] at h; cases h
      · exfalso
        rcases (c1.1 hne).2 with hz | hf
        · rw [h.1] at hz; cases hz
        · rcases hnf with hz | hu
          · rw [h.1] at hz; cases hz
          · exact absurd ((Until_pos t now).2 hf) (not_lt.2 hu)
    · obtain ⟨_, rd, _, _, _, _, _, _, rc, rr, _⟩ := raced_inv e0 e d.timers.length p hp hr
      intro hne
      have hne0 : e0.Done.1 ≠ d.Done.1 := by
        show e0.done ≠ d.done
        rw [← rd]; exact hne
      obtain ⟨f1, f2⟩ := c2 hne0
      refine ⟨by rw [rd]; exact f1, ⟨fun h => ⟨hz, ?_⟩, fun h => (rr h.2).1⟩⟩
      rcases rc e.done h with h2 | ⟨h2, _⟩
      · rw [rd, f2] at h2; cases h2
      · exact h2
  · intro ho hz hf
    have hpos : 0 < Until t now := (Until_pos t now).2 hf
    have hsame : e0.done = d.done := by
      by_contra hne
      have := (c1.1 hne).1
      rw [ho] at this; cases this
    rcases hcase with ⟨_, hnf⟩ | ⟨_, _, hp, ht, hr⟩
    · exfalso
      rcases hnf with h | h
      · rw [hz] at h; cases h
      · exact absurd hpos (not_lt.2 h)
    · obtain ⟨rt, _⟩ := raced_inv e0 e d.timers.length p hp hr
      have ho0 : e0.isClosed e0.done = false := by
        obtain ⟨x, _, hx, _, _, _, hxc, _⟩ := future_branch d t now hw hs hz hf
        rw [h0] at hx; cases hx
        exact hxc
      obtain ⟨e2, h2, h3⟩ := rest_closes e0 e d.timers.length p hp hw0 ho0 hr
      refine ⟨d.timers.length, e2, by rw [rt, ht], h2, ?_⟩
      show e2.isClosed d.done = true
      rw [← hsame]; exact h3

/-- Witness of C9: a signaled deadline with no timer, set to a future time, the new
timer having run its callback before the return. -/
theorem Set_replaces_iff_witness :
    ∃ d1 e, (deadline.mk [true] [] none 0).stopTimer = some d1 ∧
      (deadline.mk [true] [] none 0).Set 9 5 Progress.ran = some e ∧
      (e.Done.1 ≠ (deadline.mk [true] [] none 0).Done.1 ↔
        d1.isClosed d1.done = true ∧ (Time.IsZero 9 = true ∨ (5 : Time) < 9)) ∧
      (e.Done.1 ≠ (deadline.mk [true] [] none 0).Done.1 →
        e.done = (deadline.mk [true] [] none 0).chans.length ∧
        (e.isClosed e.done = true ↔ Time.IsZero 9 = false ∧ Progress.ran = Progress.ran)) ∧
      (d1.isClosed d1.done = false → Time.IsZero 9 = false → (5 : Time) < 9 →
        ∃ i e2, e.timer = some i ∧ exec e (Progress.ran.rest i) = some e2 ∧
          e2.isClosed (deadline.mk [true] [] none 0).Done.1 = true) ∧
      (∀ ev x, step (deadline.mk [true] [] none 0) ev = some x →
        (deadline.mk [true] [] none 0).isClosed (deadline.mk [true] [] none 0).done = true →
        x.isClosed x.done = false →
        ∃ u v, ev = Event.set u v ∧ (Time.IsZero u = true ∨ v < u)) :=
  Set_replaces_iff ⟨[true], [], none, 0⟩ 9 5 Progress.ran (by decide) (by decide)

/-! ## Runs from `New()` -/

/-- C5: in a state reached from `New()`, once `Set` has replaced the timer `i` that
was in the timer field, in every continuation of the run timer `i` neither expires
nor runs its callback, and if it was pending at the call it is stopped for good.
Moreover, in every run from `New()`, a channel that a transition closes is the
current `done`, and it is closed either by a `Set` with a non-zero time not after the
clock reading, or by the callback of the timer in the timer field, which was armed
when that channel was in `done` - the callback running on its own or inside the
drain of `Set`. -/
theorem no_stale_fire (es : List Event) (d e : deadline) (i : TimerRef) (t now : Time)
    (p : Progress)
    (hd : exec New es = some d) (hi : d.timer = some i) (he : d.Set t now p = some e) :
    (∀ es2 e2, exec e es2 = some e2 →
      enabled e2 (Event.expire i) = false ∧ enabled e2 (Event.run i) = false ∧
      (d.status i = TimerStatus.pending → e2.status i = TimerStatus.stopped)) ∧
    (∀ es2 x ev y c, exec New es2 = some x → enabled x ev = true → step x ev = some y →
      x.isClosed c = false → y.isClosed c = true →
      c = x.done ∧
      ((∃ u v, ev = Event.set u v ∧ Time.IsZero u = false ∧ Until u v ≤ 0) ∨
       (∃ j, x.timer = some j ∧ x.status j = TimerStatus.fired ∧
          (x.getTimer j).armedFor = c ∧
          (ev = Event.run j ∨ ∃ u v, ev = Event.set u v)))) := by
  have hinv : Inv d := Inv_exec es New d Inv_New hd
  refine ⟨fun es2 e2 h2 => ?_, fun es2 x ev y c hx hen hst ho hc =>
    closed_by x y ev c (Inv_exec es2 New x Inv_New hx) hen hst ho hc⟩
  have hlt : i < d.timers.length := hinv.1.2 i hi
  obtain ⟨d1, h1, hlen, hold⟩ := Set_ret_status_old d e t now p he
  have hq := stopTimer_quiet d d1 hinv h1 i
  have he1 : e.status i = d1.status i := hold i hlt
  have hdead : e.status i = TimerStatus.finished ∨ e.status i = TimerStatus.stopped := by
    rw [he1]
    unfold deadline.live at hq
    cases hs : d1.status i with
    | pending => exact absurd (Or.inl hs) hq
    | fired => exact absurd (Or.inr hs) hq
    | finished => exact Or.inl rfl
    | stopped => exact Or.inr rfl
  have hkeep := exec_dead es2 e e2 i h2 (Nat.lt_of_lt_of_le hlt hlen) hdead
  refine ⟨?_, ?_, fun hp => ?_⟩
  · rw [← hkeep] at hdead
    rcases hdead with h | h <;> simp [enabled, h]
  · rw [← hkeep] at hdead
    rcases hdead with h | h <;> simp [enabled, h]
  · rw [hkeep, he1]
    exact (stopTimer_status d d1 h1 i).1 hi hp

/-- Witness of C5: `Set` one hour ahead, then `Set` with the zero time. -/
theorem no_stale_fire_witness :
    (∀ es2 e2, exec (deadline.mk [false] [⟨TimerStatus.stopped, 0⟩] none 0) es2 = some e2 →
      enabled e2 (Event.expire 0) = false ∧ enabled e2 (Event.run 0) = false ∧
      ((deadline.mk [false] [⟨TimerStatus.pending, 0⟩] (some 0) 0).status 0 =
        TimerStatus.pending → e2.status 0 = TimerStatus.stopped)) ∧
    (∀ es2 x ev y c, exec New es2 = some x → enabled x ev = true → step x ev = some y →
      x.isClosed c = false → y.isClosed c = true →
      c = x.done ∧
      ((∃ u v, ev = Event.set u v ∧ Time.IsZero u = false ∧ Until u v ≤ 0) ∨
       (∃ j, x.timer = some j ∧ x.status j = TimerStatus.fired ∧
          (x.getTimer j).armedFor = c ∧
          (ev = Event.run j ∨ ∃ u v, ev = Event.set u v)))) :=
  no_stale_fire [Event.set 3600000000005 5] ⟨[false], [⟨TimerStatus.pending, 0⟩], some 0, 0⟩
    ⟨[false], [⟨TimerStatus.stopped, 0⟩], none, 0⟩ 0 0 6 Progress.waiting (by decide)
    (by decide) (by decide)

/-- C10: in every state reached from `New()` by calls of `Set`, timer expiries and
callback runs, every enabled transition succeeds: `Set` returns for every argument,
whatever the timer it arms does before the return, and the callback of a timer in
flight finds `done` open, so that no `close` meets a closed channel; and while a
timer is pending or in flight, the current signal is not signaled. -/
theorem no_failure (es : List Event) (d : deadline) (h : exec New es = some d) :
    (∀ ev, enabled d ev = true → ∃ e, step d ev = some e) ∧
    (∀ t now p, ∃ e, d.Set t now p = some e) ∧
    (∀ i, enabled d (Event.run i) = true → d.isClosed d.done = false) ∧
    (∀ i, d.status i = TimerStatus.pending ∨ d.status i = TimerStatus.fired →
      d.isClosed d.done = false) := by
  have hinv : Inv d := Inv_exec es New d Inv_New h
  refine ⟨fun ev hen => step_some d ev hinv hen,
    fun t now p => Set_ret_some d t now p hinv.1 hinv.2.1, fun i hen => ?_,
    fun i hl => (hinv.2.2 i hl).2.2⟩
  exact (hinv.2.2 i (Or.inr (by simpa [enabled] using hen))).2.2

/-- Witness of C10: `Set` in the future, the expiry of the timer, and a second `Set`
that drains it. -/
theorem no_failure_witness :
    (∀ ev, enabled (deadline.mk [true, false] [⟨TimerStatus.finished, 0⟩] none 1) ev = true →
      ∃ e, step (deadline.mk [true, false] [⟨TimerStatus.finished, 0⟩] none 1) ev = some e) ∧
    (∀ t now p, ∃ e,
      (deadline.mk [true, false] [⟨TimerStatus.finished, 0⟩] none 1).Set t now p =
        some e) ∧
    (∀ i, enabled (deadline.mk [true, false] [⟨TimerStatus.finished, 0⟩] none 1)
        (Event.run i) = true →
      (deadline.mk [true, false] [⟨TimerStatus.finished, 0⟩] none 1).isClosed
        (deadline.mk [true, false] [⟨TimerStatus.finished, 0⟩] none 1).done = false) ∧
    (∀ i, (deadline.mk [true, false] [⟨TimerStatus.finished, 0⟩] none 1).status i =
        TimerStatus.pending ∨
      (deadline.mk [true, false] [⟨TimerStatus.finished, 0⟩] none 1).status i =
        TimerStatus.fired →
      (deadline.mk [true, false] [⟨TimerStatus.finished, 0⟩] none 1).isClosed
        (deadline.mk [true, false] [⟨TimerStatus.finished, 0⟩] none 1).done = false) :=
  no_failure [Event.set 5 3, Event.expire 0, Event.set 0 4]
    ⟨[true, false], [⟨TimerStatus.finished, 0⟩], none, 1⟩ (by decide)

end Deadline
